import Mathlib

/-!
Verification model of the ZeroMailPanthom dispatch & tracking engine.

Each Python function of the repository that a claim depends on is embedded
as an executable Lean definition over explicit state:

* `email_campaign/email_sender.py`  — template parsing, placeholder
  substitution, attachment validation, the SMTP/API retry loops, and the
  sender-side Tor circuit refresh;
* `email_campaign/email_tracking.py` — the SQLite tracking store as a pure
  state (`TrackerState`) with one transformer per method, the campaign
  statistics queries, and link instrumentation (`generate_tracking_links`);
* `email_campaign/tor_handler.py`   — `TorHandler.refresh_circuit` with its
  rate limit, modelled with an explicit effect trace;
* `email_campaign/main.py`          — the batched dispatch loop of
  `EmailCampaign.send_campaign`, modelled as an event-trace function.

Machine/stdlib facts that the code relies on are modelled concretely:
SHA-256 (hashlib), UTF-8 percent-encoding (urllib's `urlencode` with
`quote_plus`), and Python `str.replace` / `str.strip` / `str.split`.
-/

namespace ZeroMail

/-! ## Generic string helpers (Python `str` semantics over `List Char`) -/

/-- Does `pat` occur at the very start of `s`?  (Python `str.startswith`.) -/
def leadsWith : List Char → List Char → Bool
  | [], _ => true
  | _ :: _, [] => false
  | p :: ps, c :: cs => p == c && leadsWith ps cs

/-- Does `pat` occur anywhere in `s` (as a contiguous substring)?
Python's `pat in s`. -/
def occursIn (pat : List Char) : List Char → Bool
  | [] => leadsWith pat []
  | c :: cs => leadsWith pat (c :: cs) || occursIn pat cs

/-- Python whitespace stripped by `str.strip()`. -/
def isPySpace (c : Char) : Bool :=
  c == ' ' || c == '\t' || c == '\n' || c == '\r' || c == '\x0b' || c == '\x0c'

/-- Python `str.strip()`. -/
def pyStrip (s : List Char) : List Char :=
  ((s.dropWhile isPySpace).reverse.dropWhile isPySpace).reverse

/-- Python `str.lower()` (ASCII case folding, which is all the code feeds it). -/
def pyLower (s : List Char) : List Char := s.map Char.toLower

/-- Python `str.split(sep)` for a single-character separator:
`List.splitOn` has exactly these semantics (`"a,,b" → ["a","","b"]`,
`"" → [""]`). -/
def pySplit (sep : Char) (s : List Char) : List (List Char) := s.splitOn sep

/-- Scanner of Python `str.replace(old, new)` (for non-empty `old`): scan
left to right, replacing each non-overlapping occurrence.  `fuel` is only a
structural-recursion bound; it never runs out when it starts at the string
length (each step consumes at least one character). -/
def pyReplaceAux (old new : List Char) : Nat → List Char → List Char
  | _, [] => []
  | 0, s => s
  | fuel + 1, c :: cs =>
    if leadsWith old (c :: cs) then
      new ++ pyReplaceAux old new fuel ((c :: cs).drop old.length)
    else
      c :: pyReplaceAux old new fuel cs

/-- Python `str.replace(old, new)`.  The code only ever calls this with
non-empty `old` (placeholder tokens, header prefixes); for empty `old` we
return `s` unchanged. -/
def pyReplace (old new : List Char) (s : List Char) : List Char :=
  if old = [] then s else pyReplaceAux old new s.length s

/-! ## Transport retry loop
(`EmailSender._send_via_smtp` / `EmailSender._send_via_api`,
`email_sender.py` lines 410-519).

Both variants run the same policy:

```
retry_count = 0
while retry_count < max_retries:
    try: <attempt>; return
    except: retry_count += 1
            if retry_count < max_retries: time.sleep(retry_delay)
            else: raise
```

The underlying transport is abstracted as `tr : Nat → Bool`: `tr i` tells
whether the `i`-th attempt (0-based) succeeds.  The outcome records whether
the call returned normally or raised, how many attempts were made, and the
list of sleep durations taken (in order). -/

structure SendOutcome where
  raised : Bool
  attempts : Nat
  sleeps : List Nat
  deriving Repr, DecidableEq

/-- One step of the `while retry_count < max_retries` loop, entered with
counter `rc`; `tr rc` is the outcome of the attempt made in this iteration. -/
def sendLoop (maxRetries retryDelay : Nat) (tr : Nat → Bool) (rc : Nat) :
    SendOutcome :=
  if rc < maxRetries then
    if tr rc then
      { raised := false, attempts := 1, sleeps := [] }
    else
      if rc + 1 < maxRetries then
        let rest := sendLoop maxRetries retryDelay tr (rc + 1)
        { rest with attempts := rest.attempts + 1,
                    sleeps := retryDelay :: rest.sleeps }
      else
        { raised := true, attempts := 1, sleeps := [] }
  else
    -- loop condition false: fall through, function returns None (no raise)
    { raised := false, attempts := 0, sleeps := [] }
termination_by maxRetries - rc

/-- Model of `_send_via_smtp` / `_send_via_api` retry behaviour: the loop entered
with `retry_count = 0`. -/
def sendWithRetries (maxRetries retryDelay : Nat) (tr : Nat → Bool) :
    SendOutcome :=
  sendLoop maxRetries retryDelay tr 0

/-! ## SHA-256 (`hashlib.sha256(...).hexdigest()`)

The code uses SHA-256 in two places: hashing client network addresses
(`EmailTracker._hash_ip`) and deriving the 12-hex-char link-integrity tag
(`EmailTracker.generate_tracking_links`).  We implement the FIPS 180-4
algorithm over byte lists, with 32-bit words as `Nat` reduced `% 2^32`. -/

/-- Truncate to a 32-bit word. -/
def w32 (n : Nat) : Nat := n % 2 ^ 32

/-- Right-rotate a 32-bit word by `n` bits. -/
def rotr32 (n x : Nat) : Nat := w32 (x / 2 ^ n + x % 2 ^ n * 2 ^ (32 - n))

/-- Bitwise complement of a 32-bit word. -/
def not32 (x : Nat) : Nat := 2 ^ 32 - 1 - x % 2 ^ 32

def sha256K : List Nat :=
  [1116352408, 1899447441, 3049323471, 3921009573, 961987163, 1508970993, 2453635748, 2870763221,
   3624381080, 310598401, 607225278, 1426881987, 1925078388, 2162078206, 2614888103, 3248222580,
   3835390401, 4022224774, 264347078, 604807628, 770255983, 1249150122, 1555081692, 1996064986,
   2554220882, 2821834349, 2952996808, 3210313671, 3336571891, 3584528711, 113926993, 338241895,
   666307205, 773529912, 1294757372, 1396182291, 1695183700, 1986661051, 2177026350, 2456956037,
   2730485921, 2820302411, 3259730800, 3345764771, 3516065817, 3600352804, 4094571909, 275423344,
   430227734, 506948616, 659060556, 883997877, 958139571, 1322822218, 1537002063, 1747873779,
   1955562222, 2024104815, 2227730452, 2361852424, 2428436474, 2756734187, 3204031479, 3329325298]

/-- Working registers of the compression function. -/
structure Sha256Regs where
  a : Nat
  b : Nat
  c : Nat
  d : Nat
  e : Nat
  f : Nat
  g : Nat
  hh : Nat
  deriving Repr, DecidableEq

def sha256H0 : Sha256Regs :=
  { a := 1779033703, b := 3144134277, c := 1013904242, d := 2773480762,
    e := 1359893119, f := 2600822924, g := 528734635, hh := 1541459225 }

def sigma0 (x : Nat) : Nat := rotr32 7 x ^^^ rotr32 18 x ^^^ w32 (x / 2 ^ 3)

def sigma1 (x : Nat) : Nat := rotr32 17 x ^^^ rotr32 19 x ^^^ w32 (x / 2 ^ 10)

def bigSigma0 (x : Nat) : Nat := rotr32 2 x ^^^ rotr32 13 x ^^^ rotr32 22 x

def bigSigma1 (x : Nat) : Nat := rotr32 6 x ^^^ rotr32 11 x ^^^ rotr32 25 x

def chFn (x y z : Nat) : Nat := (x &&& y) ^^^ (not32 x &&& z)

def majFn (x y z : Nat) : Nat := (x &&& y) ^^^ (x &&& z) ^^^ (y &&& z)

/-- One round of the SHA-256 compression function with round constant `k`
and schedule word `wd`. -/
def sha256Round (r : Sha256Regs) (k wd : Nat) : Sha256Regs :=
  let t1 := w32 (r.hh + bigSigma1 r.e + chFn r.e r.f r.g + k + wd)
  let t2 := w32 (bigSigma0 r.a + majFn r.a r.b r.c)
  { a := w32 (t1 + t2), b := r.a, c := r.b, d := r.c,
    e := w32 (r.d + t1), f := r.e, g := r.f, hh := r.g }

/-- Extend the 16 block words to the 64-word message schedule. -/
def sha256Extend : Nat → List Nat → List Nat
  | 0, ws => ws
  | n + 1, ws =>
    let m := ws.length
    let nw := w32 (sigma1 (ws.getD (m - 2) 0) + ws.getD (m - 7) 0 +
                   sigma0 (ws.getD (m - 15) 0) + ws.getD (m - 16) 0)
    sha256Extend n (ws ++ [nw])

/-- Split a list into chunks of `n` elements (`n > 0`; the last chunk may be
shorter). -/
def chunksOf (n : Nat) (l : List α) : List (List α) :=
  match l with
  | [] => []
  | c :: cs =>
    if h : n = 0 then []
    else (c :: cs).take n :: chunksOf n ((c :: cs).drop n)
termination_by l.length
decreasing_by
  simp only [List.length_drop, List.length_cons]
  omega

/-- Big-endian 32-bit word from (up to) 4 bytes. -/
def bytesToWord : List Nat → Nat
  | [b0, b1, b2, b3] => b0 * 2 ^ 24 + b1 * 2 ^ 16 + b2 * 2 ^ 8 + b3
  | _ => 0

/-- Big-endian bytes of a 32-bit word. -/
def wordToBytes (wd : Nat) : List Nat :=
  [wd / 2 ^ 24 % 256, wd / 2 ^ 16 % 256, wd / 2 ^ 8 % 256, wd % 256]

/-- SHA-256 padding: `0x80`, zeros to 56 mod 64, then the bit length as a
big-endian 64-bit integer. -/
def sha256Pad (msg : List Nat) : List Nat :=
  let L := msg.length
  let k := (64 - (L + 9) % 64) % 64
  msg ++ 0x80 :: List.replicate k 0 ++
    (List.range 8).map (fun i => 8 * L % 2 ^ 64 / 2 ^ (8 * (7 - i)) % 256)

/-- Compress one 64-byte block into the running hash state. -/
def sha256Block (st : Sha256Regs) (block : List Nat) : Sha256Regs :=
  let ws := sha256Extend 48 ((chunksOf 4 block).map bytesToWord)
  let r := (sha256K.zip ws).foldl (fun r kw => sha256Round r kw.1 kw.2) st
  { a := w32 (st.a + r.a), b := w32 (st.b + r.b), c := w32 (st.c + r.c),
    d := w32 (st.d + r.d), e := w32 (st.e + r.e), f := w32 (st.f + r.f),
    g := w32 (st.g + r.g), hh := w32 (st.hh + r.hh) }

/-- SHA-256 digest (32 bytes) of a byte list. -/
def sha256Bytes (msg : List Nat) : List Nat :=
  let fin := (chunksOf 64 (sha256Pad msg)).foldl sha256Block sha256H0
  [fin.a, fin.b, fin.c, fin.d, fin.e, fin.f, fin.g, fin.hh].flatMap wordToBytes

/-- The sixteen lowercase hex digits. -/
def hexDigits : List Char := "0123456789abcdef".data

def hexChar (n : Nat) : Char := hexDigits.getD (n % 16) '0'

/-- Lowercase hex rendering of a byte. -/
def byteHex (b : Nat) : List Char := [hexChar (b / 16), hexChar b]

/-! ## UTF-8 (Python `str.encode()` / `bytes.decode('utf-8')`) -/

/-- UTF-8 bytes of one Unicode scalar value (arithmetic formulation of the
standard encoding). -/
def utf8Char (c : Char) : List Nat :=
  let n := c.toNat
  if n < 0x80 then [n]
  else if n < 0x800 then [0xC0 + n / 64, 0x80 + n % 64]
  else if n < 0x10000 then
    [0xE0 + n / 4096, 0x80 + n / 64 % 64, 0x80 + n % 64]
  else
    [0xF0 + n / 262144, 0x80 + n / 4096 % 64, 0x80 + n / 64 % 64, 0x80 + n % 64]

/-- Python `str.encode('utf-8')`. -/
def utf8Encode (s : List Char) : List Nat := s.flatMap utf8Char

/-- Is `b` a UTF-8 continuation byte? -/
def isCont (b : Nat) : Prop := 0x80 ≤ b ∧ b < 0xC0

instance (b : Nat) : Decidable (isCont b) := by
  unfold isCont
  infer_instance

/-- UTF-8 decoding of a byte list (used to state that encodings are
recoverable).  Returns `none` on a malformed sequence.  `fuel` is a
structural bound (one unit per decoded character), sufficient from the byte
count on. -/
def utf8DecodeAux : Nat → List Nat → Option (List Char)
  | _, [] => some []
  | 0, _ => none
  | fuel + 1, b :: bs =>
    if b < 0x80 then
      (Char.ofNat b :: ·) <$> utf8DecodeAux fuel bs
    else if b < 0xC0 then none
    else if b < 0xE0 then
      if 1 ≤ bs.length ∧ isCont (bs.getD 0 0) then
        (Char.ofNat ((b - 0xC0) * 64 + (bs.getD 0 0 - 0x80)) :: ·) <$>
          utf8DecodeAux fuel (bs.drop 1)
      else none
    else if b < 0xF0 then
      if 2 ≤ bs.length ∧ isCont (bs.getD 0 0) ∧ isCont (bs.getD 1 0) then
        (Char.ofNat ((b - 0xE0) * 4096 + (bs.getD 0 0 - 0x80) * 64 +
          (bs.getD 1 0 - 0x80)) :: ·) <$> utf8DecodeAux fuel (bs.drop 2)
      else none
    else if b < 0xF8 then
      if 3 ≤ bs.length ∧ isCont (bs.getD 0 0) ∧ isCont (bs.getD 1 0) ∧
          isCont (bs.getD 2 0) then
        (Char.ofNat ((b - 0xF0) * 262144 + (bs.getD 0 0 - 0x80) * 4096 +
          (bs.getD 1 0 - 0x80) * 64 + (bs.getD 2 0 - 0x80)) :: ·) <$>
          utf8DecodeAux fuel (bs.drop 3)
      else none
    else none

def utf8Decode (bs : List Nat) : Option (List Char) :=
  utf8DecodeAux bs.length bs

/-- Model of `hashlib.sha256(text.encode()).hexdigest()`: lowercase hex digest of the
UTF-8 bytes. -/
def sha256Hex (s : List Char) : List Char :=
  (sha256Bytes (utf8Encode s)).flatMap byteHex

/-! ## URL encoding (`urllib.parse.urlencode` with its default `quote_plus`) -/

/-- Bytes `urllib.parse.quote_plus` leaves unescaped: ASCII letters, digits,
and `_ . - ~`. -/
def isUrlSafe (b : Nat) : Bool :=
  (65 ≤ b && b ≤ 90) || (97 ≤ b && b ≤ 122) || (48 ≤ b && b ≤ 57) ||
    b == 95 || b == 46 || b == 45 || b == 126

/-- Uppercase hex digit (percent-escapes use uppercase). -/
def hexCharUpper (n : Nat) : Char :=
  "0123456789ABCDEF".data.getD (n % 16) '0'

/-- Model of `quote_plus` on a single byte. -/
def quoteByte (b : Nat) : List Char :=
  if b == 32 then ['+']
  else if isUrlSafe b then [Char.ofNat b]
  else ['%', hexCharUpper (b / 16), hexCharUpper b]

/-- Model of `urllib.parse.quote_plus(s)`: UTF-8 encode, then escape each byte. -/
def quotePlus (s : List Char) : List Char :=
  (utf8Encode s).flatMap quoteByte

/-- Numeric value of a hex digit (both cases), as `unquote` accepts. -/
def hexVal (c : Char) : Option Nat :=
  if '0' ≤ c ∧ c ≤ '9' then some (c.toNat - 48)
  else if 'a' ≤ c ∧ c ≤ 'f' then some (c.toNat - 97 + 10)
  else if 'A' ≤ c ∧ c ≤ 'F' then some (c.toNat - 65 + 10)
  else none

/-- Model of `urllib.parse.unquote_plus`, byte phase: `+` back to space, `%XX` back
to a byte, any other ASCII character to its own byte.  `fuel` is a
structural bound (one unit per decoded byte), sufficient from the string
length on. -/
def unquoteBytesAux : Nat → List Char → Option (List Nat)
  | _, [] => some []
  | 0, _ => none
  | fuel + 1, c :: r =>
    if c = '+' then (32 :: ·) <$> unquoteBytesAux fuel r
    else if c = '%' then
      if 2 ≤ r.length then
        if (hexVal (r.getD 0 '0')).isSome ∧ (hexVal (r.getD 1 '0')).isSome then
          (((hexVal (r.getD 0 '0')).getD 0 * 16 +
            (hexVal (r.getD 1 '0')).getD 0) :: ·) <$>
            unquoteBytesAux fuel (r.drop 2)
        else none
      else none
    else if c.toNat < 128 then (c.toNat :: ·) <$> unquoteBytesAux fuel r
    else none

def unquoteBytes (s : List Char) : Option (List Nat) :=
  unquoteBytesAux s.length s

/-- Full URL-parameter decoding: unescape to bytes, then UTF-8 decode. -/
def unquotePlus (s : List Char) : Option (List Char) :=
  unquoteBytes s >>= utf8Decode

/-! ## Link instrumentation (`EmailTracker.generate_tracking_links`,
`email_tracking.py` lines 341-365)

```
tracked_content = re.sub(r'href="([^\x22]+)"', replace_link, content)
```

with `replace_link` building
`href="https://{domain}/click?eid=..&url=..&tid=.."` where the query string
is `urlencode({'eid': email_id, 'url': original_url, 'tid': sha256(
f"{email_id}:{original_url}")[:12]})`.

`re.sub` scans left to right trying each start position, taking
non-overlapping leftmost matches; the pattern matches the literal `href="`,
then one or more non-quote characters, then `"`.  `subHref` is that scanner
with an arbitrary replacement for the captured URL. -/

def hrefLit : List Char := ['h', 'r', 'e', 'f', '=', '"']

/-- Is there a full match of `href="([^\x22]+)"` at the very start of the
string?  (The literal, then at least one non-quote character, then `"`.) -/
def hrefMatchAt (s : List Char) : Bool :=
  leadsWith hrefLit s &&
    (let url := (s.drop 6).takeWhile (· ≠ '"')
     !url.isEmpty && url.length < (s.drop 6).length)

/-- What follows the match that starts at the head of `s` (the closing quote
of the captured URL is consumed). -/
def hrefRest (s : List Char) : List Char :=
  (s.drop 6).drop (((s.drop 6).takeWhile (· ≠ '"')).length + 1)

/-- The URL captured by the match that starts at the head of `s`. -/
def hrefUrlAt (s : List Char) : List Char := (s.drop 6).takeWhile (· ≠ '"')

/-- Scanner of `re.sub(r'href="([^\x22]+)"', fun u => 'href="' ++ repl u ++
'"', s)`: `re.sub` tries each start position left to right, taking
non-overlapping leftmost matches.  `fuel` is a structural bound, sufficient
whenever it starts at the string length. -/
def subHrefAux (repl : List Char → List Char) : Nat → List Char → List Char
  | _, [] => []
  | 0, s => s
  | fuel + 1, c :: cs =>
    if hrefMatchAt (c :: cs) then
      hrefLit ++ repl (hrefUrlAt (c :: cs)) ++ '"' :: subHrefAux repl fuel (hrefRest (c :: cs))
    else
      c :: subHrefAux repl fuel cs

def subHref (repl : List Char → List Char) (s : List Char) : List Char :=
  subHrefAux repl s.length s

/-- The URLs captured by the successive matches, in order. -/
def hrefUrlsAux : Nat → List Char → List (List Char)
  | _, [] => []
  | 0, _ => []
  | fuel + 1, c :: cs =>
    if hrefMatchAt (c :: cs) then
      hrefUrlAt (c :: cs) :: hrefUrlsAux fuel (hrefRest (c :: cs))
    else
      hrefUrlsAux fuel cs

def hrefUrls (s : List Char) : List (List Char) := hrefUrlsAux s.length s

/-- The literal text around the matches: `s = chunks₀ ++ match₀ ++ chunks₁
++ match₁ ++ ... ++ chunksₙ` (one more chunk than there are matches). -/
def hrefChunksAux : Nat → List Char → List (List Char)
  | _, [] => [[]]
  | 0, s => [s]
  | fuel + 1, c :: cs =>
    if hrefMatchAt (c :: cs) then
      [] :: hrefChunksAux fuel (hrefRest (c :: cs))
    else
      match hrefChunksAux fuel cs with
      | [] => [[c]]
      | k :: ks => (c :: k) :: ks

def hrefChunks (s : List Char) : List (List Char) := hrefChunksAux s.length s

/-- Interleave chunks with rendered replacements:
`chunks₀ ++ r₀ ++ chunks₁ ++ r₁ ++ ...`. -/
def interleave : List (List Char) → List (List Char) → List Char
  | [], _ => []
  | k :: _, [] => k
  | k :: ks, r :: rs => k ++ r ++ interleave ks rs

/-- The 12-hex-char integrity tag:
`hashlib.sha256(f"{email_id}:{original_url}".encode()).hexdigest()[:12]`. -/
def linkTag (emailId url : List Char) : List Char :=
  (sha256Hex (emailId ++ ':' :: url)).take 12

/-- The query string `urlencode({'eid': .., 'url': .., 'tid': ..})`
(dict insertion order is preserved; keys are unescaped-safe literals). -/
def trackingQuery (emailId url : List Char) : List Char :=
  "eid=".data ++ quotePlus emailId ++ "&url=".data ++ quotePlus url ++
    "&tid=".data ++ quotePlus (linkTag emailId url)

/-- The full replacement URL for one matched link. -/
def trackingUrl (emailId domain url : List Char) : List Char :=
  "https://".data ++ domain ++ "/click?".data ++ trackingQuery emailId url

/-- Model of `EmailTracker.generate_tracking_links(content, email_id, tracking_domain)`. -/
def generateTrackingLinks (content emailId domain : List Char) : List Char :=
  subHref (trackingUrl emailId domain) content

/-! ## The tracking store (`EmailTracker`, `email_tracking.py`)

The SQLite database is modelled as four row lists in insertion order; each
method of `EmailTracker` becomes a pure state transformer.  Caller-supplied
and environment values (UUIDs, `datetime.now()`, the client address) are
explicit arguments.  Timestamps are `Nat` (the stored ISO-8601 strings
compare lexicographically exactly as the instants compare). -/

/-- A row of the `emails` table. -/
structure EmailRow where
  email_id : String
  campaign_id : String
  recipient_email : String
  template_name : String
  sent_time : Nat
  status : String
  tracking_pixel_id : Option String
  bounce_info : Option String
  deriving Repr, DecidableEq

/-- A row of the `opens` table. -/
structure OpenRow where
  open_id : String
  email_id : String
  open_time : Nat
  user_agent : Option String
  ip_address : Option String
  country : Option String
  device_type : String
  deriving Repr, DecidableEq

/-- A row of the `clicks` table. -/
structure ClickRow where
  click_id : String
  email_id : String
  link_url : String
  click_time : Nat
  user_agent : Option String
  ip_address : Option String
  country : Option String
  device_type : String
  deriving Repr, DecidableEq

/-- A row of the `bounces` table. -/
structure BounceRow where
  bounce_id : String
  email_id : String
  bounce_time : Nat
  bounce_type : String
  bounce_reason : String
  description : Option String
  deriving Repr, DecidableEq

/-- The whole tracking database. -/
structure TrackerState where
  emails : List EmailRow
  opens : List OpenRow
  clicks : List ClickRow
  bounces : List BounceRow
  deriving Repr, DecidableEq

/-- Model of `EmailTracker._init_database`: drops the four tables if they exist and
recreates them empty.  Constructing an `EmailTracker` over an existing
database therefore yields the empty state, whatever was stored before. -/
def initDatabase (_prev : TrackerState) : TrackerState :=
  { emails := [], opens := [], clicks := [], bounces := [] }

/-- Model of `EmailTracker.track_email_send`: inserts a `sent` row.  `emailId` is the
generated UUID, `now` the current time. -/
def trackEmailSend (s : TrackerState) (emailId campaignId recipient
    templateName : String) (now : Nat) : TrackerState :=
  { s with emails := s.emails ++
      [{ email_id := emailId, campaign_id := campaignId,
         recipient_email := recipient, template_name := templateName,
         sent_time := now, status := "sent", tracking_pixel_id := none,
         bounce_info := none }] }

/-- Model of `EmailTracker.create_tracking_pixel`: `UPDATE emails SET
tracking_pixel_id = ? WHERE email_id = ?`. -/
def createTrackingPixel (s : TrackerState) (emailId pixelId : String) :
    TrackerState :=
  { s with emails := s.emails.map (fun e =>
      if e.email_id = emailId then { e with tracking_pixel_id := some pixelId }
      else e) }

/-- Model of `EmailTracker._hash_ip` guarded by `if ip_address else None`: a missing
or empty address stays `NULL`, anything else is stored as its SHA-256 hex
digest. -/
def storedIp (ip : Option String) : Option String :=
  match ip with
  | none => none
  | some v => if v = "" then none else some (sha256Hex v.data).asString

/-- Model of `EmailTracker._detect_device_type`. -/
def detectDeviceType (ua : Option String) : String :=
  match ua with
  | none => "unknown"
  | some v =>
    if v = "" then "unknown"
    else
      let l := pyLower v.data
      if occursIn "mobile".data l || occursIn "android".data l ||
          occursIn "iphone".data l then "mobile"
      else if occursIn "tablet".data l || occursIn "ipad".data l then "tablet"
      else "desktop"

/-- Model of `EmailTracker.track_open`: resolve the pixel token to a message; if the
token is unknown the call is a no-op, otherwise an open row is inserted with
the hashed address. -/
def trackOpen (s : TrackerState) (pixelId : String) (ua ip country :
    Option String) (openId : String) (now : Nat) : TrackerState :=
  match s.emails.find? (fun e => e.tracking_pixel_id = some pixelId) with
  | none => s
  | some e =>
    { s with opens := s.opens ++
        [{ open_id := openId, email_id := e.email_id, open_time := now,
           user_agent := ua, ip_address := storedIp ip, country := country,
           device_type := detectDeviceType ua }] }

/-- Model of `EmailTracker.track_click`: inserts a click row (no token resolution;
the message identifier is taken from the request). -/
def trackClick (s : TrackerState) (emailId linkUrl : String)
    (ua ip country : Option String) (clickId : String) (now : Nat) :
    TrackerState :=
  { s with clicks := s.clicks ++
      [{ click_id := clickId, email_id := emailId, link_url := linkUrl,
         click_time := now, user_agent := ua, ip_address := storedIp ip,
         country := country, device_type := detectDeviceType ua }] }

/-- Model of `EmailTracker.track_bounce`: inserts a bounce row and flips the owning
message's status to `bounced`. -/
def trackBounce (s : TrackerState) (emailId btype breason : String)
    (bdesc : Option String) (bounceId : String) (now : Nat) : TrackerState :=
  { s with
      bounces := s.bounces ++
        [{ bounce_id := bounceId, email_id := emailId, bounce_time := now,
           bounce_type := btype, bounce_reason := breason,
           description := bdesc }],
      emails := s.emails.map (fun e =>
        if e.email_id = emailId then
          { e with status := "bounced", bounce_info := some breason }
        else e) }

/-- Model of `EmailTracker.cleanup_old_data`: for `opens`, `clicks`, `bounces` delete
the rows whose owning message is older than the cutoff (the `emails` table is
still intact when those subqueries run, since it is deleted last), then
delete the old `emails` rows themselves. -/
def cleanupOldData (s : TrackerState) (cutoff : Nat) : TrackerState :=
  let oldIds := (s.emails.filter (fun e => e.sent_time < cutoff)).map
    (·.email_id)
  { emails := s.emails.filter (fun e => ¬ e.sent_time < cutoff),
    opens := s.opens.filter (fun o => ¬ o.email_id ∈ oldIds),
    clicks := s.clicks.filter (fun c => ¬ c.email_id ∈ oldIds),
    bounces := s.bounces.filter (fun b => ¬ b.email_id ∈ oldIds) }

/-- Python `a / b` on numbers: a `ZeroDivisionError` (`none`) when `b = 0`,
the exact quotient otherwise (floats are modelled as exact rationals; none of
the guarded divisions here can produce `NaN` or infinities when the guard
passes). -/
def pyDiv (a b : ℚ) : Option ℚ := if b = 0 then none else some (a / b)

/-- Result of `EmailTracker.get_campaign_stats` (the fields the analytics
report; the device breakdown and per-type bounce map are omitted as no claim
mentions them). -/
structure CampaignStats where
  total_sent : Nat
  unique_recipients : Nat
  unique_opens : Nat
  total_opens : Nat
  unique_clicks : Nat
  total_clicks : Nat
  total_bounces : Nat
  bounce_percent : Option ℚ
  open_percent : Option ℚ
  click_percent : Option ℚ
  click_to_open_percent : Option ℚ
  deriving Repr, DecidableEq

/-- The `WHERE campaign_id = ? [AND sent_time BETWEEN ? AND ?]` filter. -/
def inCampaign (campaignId : String) (range : Option (Nat × Nat))
    (e : EmailRow) : Bool :=
  e.campaign_id = campaignId &&
    match range with
    | none => true
    | some (a, b) => a ≤ e.sent_time && e.sent_time ≤ b

/-- Model of `EmailTracker.get_campaign_stats`.  Each SQL aggregate is computed over
the row lists exactly as SQLite evaluates it; in particular the unique-opens
and unique-clicks queries are `SELECT COUNT(DISTINCT e.email_id) FROM emails
e LEFT JOIN opens/clicks ...`, which counts the distinct *campaign* message
identifiers — the left join keeps every message whether or not it has any
matching event row. -/
def getCampaignStats (s : TrackerState) (campaignId : String)
    (range : Option (Nat × Nat) := none) : CampaignStats :=
  let ce := s.emails.filter (inCampaign campaignId range)
  let total_sent := ce.length
  let unique_recipients := (ce.map (·.recipient_email)).dedup.length
  let unique_opens := (ce.map (·.email_id)).dedup.length
  let total_opens := (ce.map (fun e =>
    (s.opens.filter (fun o => o.email_id = e.email_id)).length)).sum
  let unique_clicks := (ce.map (·.email_id)).dedup.length
  let total_clicks := (ce.map (fun e =>
    (s.clicks.filter (fun c => c.email_id = e.email_id)).length)).sum
  let total_bounces := (ce.map (fun e =>
    (s.bounces.filter (fun b => b.email_id = e.email_id)).length)).sum
  { total_sent := total_sent, unique_recipients := unique_recipients,
    unique_opens := unique_opens, total_opens := total_opens,
    unique_clicks := unique_clicks, total_clicks := total_clicks,
    total_bounces := total_bounces,
    bounce_percent := if total_sent > 0 then
      (pyDiv total_bounces total_sent).map (· * 100) else some 0,
    open_percent := if total_sent > 0 then
      (pyDiv unique_opens total_sent).map (· * 100) else some 0,
    click_percent := if total_sent > 0 then
      (pyDiv unique_clicks total_sent).map (· * 100) else some 0,
    click_to_open_percent := if unique_opens > 0 then
      (pyDiv unique_clicks unique_opens).map (· * 100) else some 0 }

/-! ## Template loading (`EmailTemplate`, `email_sender.py` lines 100-191) -/

/-- Model of `os.path.join(dir, name)` for the shapes that occur here. -/
def osPathJoin (d a : List Char) : List Char :=
  if leadsWith ['/'] a then a
  else if d = [] then a
  else if d.getLast? = some '/' then d ++ a
  else d ++ '/' :: a

/-- Header-parsing state of `EmailTemplate._load_template`'s line loop. -/
structure TemplateAcc where
  subject : List Char
  is_html : Bool
  is_base64 : Bool
  attachments : List (List Char)
  in_headers : Bool
  content_lines : List (List Char)
  deriving Repr, DecidableEq

def templateAcc0 : TemplateAcc :=
  { subject := [], is_html := false, is_base64 := false, attachments := [],
    in_headers := true, content_lines := [] }

/-- One iteration of the `for line in lines` loop. -/
def parseTemplateLine (st : TemplateAcc) (raw : List Char) : TemplateAcc :=
  let line := pyStrip raw
  if st.in_headers then
    if leadsWith "Subject:".data line then
      { st with subject := pyStrip (pyReplace "Subject:".data [] line) }
    else if leadsWith "Content-Type:".data line then
      { st with is_html := occursIn "html".data (pyLower line) }
    else if leadsWith "Encoding:".data line then
      { st with is_base64 := occursIn "base64".data (pyLower line) }
    else if leadsWith "Attachments:".data line then
      let atts := pyStrip (pyReplace "Attachments:".data [] line)
      if atts ≠ [] then
        { st with attachments := (pySplit ',' atts).map pyStrip }
      else st
    else if line = [] then { st with in_headers := false }
    else st
  else if line ≠ [] then
    { st with content_lines := st.content_lines ++ [line] }
  else st

/-- The header/body scan over all lines of the file. -/
def parseTemplate (rawLines : List (List Char)) : TemplateAcc :=
  rawLines.foldl parseTemplateLine templateAcc0

/-- A loaded template (the fields of `EmailTemplate`). -/
structure LoadedTemplate where
  subject : List Char
  content : List Char
  is_html : Bool
  is_base64 : Bool
  attachments : List (List Char)
  deriving Repr, DecidableEq

/-- How template loading fails. -/
inductive LoadError where
  /-- Model of `base64.b64decode(...)` raised (re-raised by `_load_template`). -/
  | base64Error : LoadError
  /-- The `FileNotFoundError` of `_validate_attachments`, carrying the list
  of missing names (in declaration order) and the attachment directory. -/
  | missingAttachments (missing : List (List Char)) (dir : List Char) : LoadError
  deriving Repr, DecidableEq

/-- The message of the `FileNotFoundError`:
`f"Missing attachments: {', '.join(missing)} in directory {dir}"`. -/
def missingMsg (missing : List (List Char)) (dir : List Char) : List Char :=
  "Missing attachments: ".data ++
    (List.intersperse ", ".data missing).flatten ++
    " in directory ".data ++ dir

/-- Model of `EmailTemplate._validate_attachments`: collects every declared
attachment whose file does not exist and raises if any is missing. -/
def validateAttachments (fileExists : List Char → Bool)
    (attachmentDir : List Char) (atts : List (List Char)) :
    Except LoadError Unit :=
  if atts = [] then .ok ()
  else
    let missing := atts.filter (fun a => ! fileExists (osPathJoin attachmentDir a))
    if missing = [] then .ok ()
    else .error (.missingAttachments missing attachmentDir)

/-- Model of `EmailTemplate._load_template` (and thus the `EmailTemplate`
constructor): parse headers and body, base64-decode the body when the
`Encoding:` header asked for it, then eagerly validate the attachments.
`b64decode` stands for Python's `base64.b64decode(..).decode('utf-8')`
(an external codec), returning `none` when it raises. -/
def loadTemplate (b64decode : List Char → Option (List Char))
    (fileExists : List Char → Bool) (attachmentDir : List Char)
    (rawLines : List (List Char)) : Except LoadError LoadedTemplate :=
  let acc := parseTemplate rawLines
  let content := (List.intersperse ['\n'] acc.content_lines).flatten
  match h : acc.is_base64, b64decode content with
  | true, none => .error .base64Error
  | true, some c =>
    (validateAttachments fileExists attachmentDir acc.attachments).map
      (fun _ => { subject := acc.subject, content := c, is_html := acc.is_html,
                  is_base64 := true, attachments := acc.attachments })
  | false, _ =>
    (validateAttachments fileExists attachmentDir acc.attachments).map
      (fun _ => { subject := acc.subject, content := content,
                  is_html := acc.is_html, is_base64 := false,
                  attachments := acc.attachments })

/-! ## Placeholder substitution (`EmailTemplate.replace_placeholders`,
`email_sender.py` lines 181-191) -/

/-- The token `f"\x7b\x7b.{key}\x7d\x7d"` built for each replacement key. -/
def placeholderToken (k : List Char) : List Char :=
  '{' :: '{' :: '.' :: (k ++ ['}', '}'])

/-- Model of `replace_placeholders`: a sequential fold over the replacement map (in
iteration order), each step replacing every occurrence of that key's token
in the current subject and content. -/
def replacePlaceholders (pairs : List (List Char × List Char))
    (subject content : List Char) : List Char × List Char :=
  pairs.foldl
    (fun sc kv => (pyReplace (placeholderToken kv.1) kv.2 sc.1,
                   pyReplace (placeholderToken kv.1) kv.2 sc.2))
    (subject, content)

/-- Simultaneous substitution — the specification's reading: scan the
*original* string left to right, and at each position replace the first
mapped token that starts there, leaving every other character unchanged.
`fuel` is a structural bound, sufficient from the string length on. -/
def simSubstAux (pairs : List (List Char × List Char)) :
    Nat → List Char → List Char
  | _, [] => []
  | 0, s => s
  | fuel + 1, c :: cs =>
    match pairs.find? (fun kv => leadsWith (placeholderToken kv.1) (c :: cs)) with
    | some kv =>
      kv.2 ++ simSubstAux pairs fuel ((c :: cs).drop (placeholderToken kv.1).length)
    | none => c :: simSubstAux pairs fuel cs

def simSubst (pairs : List (List Char × List Char)) (s : List Char) :
    List Char :=
  simSubstAux pairs s.length s

/-! ## Identity refresh

`TorHandler.refresh_circuit` (`tor_handler.py` lines 131-177) and
`EmailSender.refresh_tor_circuit` (`email_sender.py` lines 253-277).

Network and controller interactions are abstracted into an effect trace
(`TorEff`) plus a world record saying how they would respond; the claims are
about which effects happen and what is returned. -/

inductive TorEff where
  /-- An IP probe (`_get_current_ip`). -/
  | probeIp : TorEff
  /-- Model of `controller.signal(Signal.NEWNYM)`. -/
  | signalNewnym : TorEff
  /-- Model of `time.sleep(secs)`. -/
  | sleep (secs : Nat) : TorEff
  deriving Repr, DecidableEq

/-- The `TorHandler` fields `refresh_circuit` reads or writes. -/
structure TorHandlerState where
  enabled : Bool
  refresh_interval : Int
  circuit_timeout : Nat
  force_tor : Bool
  last_refresh : Int
  deriving Repr, DecidableEq

/-- Environment responses for one refresh request. -/
structure TorWorld where
  /-- Controller connection + authentication succeed. -/
  authOk : Bool
  oldIp : Option String
  newIp : Option String
  deriving Repr, DecidableEq

/-- Result of `TorHandler.refresh_circuit`: the returned bool (or a raised
`RuntimeError` as `.error ()`), the updated handler state, and the effect
trace. -/
structure RefreshOut where
  result : Except Unit Bool
  state : TorHandlerState
  effects : List TorEff
  deriving Repr

/-- Model of `TorHandler.refresh_circuit(now)`. -/
def refreshCircuit (st : TorHandlerState) (now : Int) (w : TorWorld) :
    RefreshOut :=
  if ¬ st.enabled then { result := .ok false, state := st, effects := [] }
  else if now - st.last_refresh < st.refresh_interval then
    { result := .ok false, state := st, effects := [] }
  else if w.authOk then
    let st' := { st with last_refresh := now }
    let effs := [TorEff.probeIp, TorEff.signalNewnym,
                 TorEff.sleep st.circuit_timeout, TorEff.probeIp]
    if w.newIp ≠ none ∧ w.newIp ≠ w.oldIp then
      { result := .ok true, state := st', effects := effs }
    else
      { result := .ok false, state := st', effects := effs }
  else
    -- controller connect/auth raised: caught by the outer handler
    if st.force_tor then { result := .error (), state := st,
                           effects := [TorEff.probeIp] }
    else { result := .ok false, state := st, effects := [TorEff.probeIp] }

/-- Configuration read by `EmailSender.refresh_tor_circuit`. -/
structure SenderTorConfig where
  use_tor : Bool
  circuit_build_timeout : Nat
  force_tor : Bool
  deriving Repr, DecidableEq

/-- Model of `EmailSender.refresh_tor_circuit`, the refresh the send path
(`_send_via_smtp` / `_send_via_api`) actually calls before each attempt.
It keeps no timing state at all: whenever Tor is enabled and the controller
authenticates, it signals NEWNYM and sleeps the configured settle time. -/
def senderRefreshTorCircuit (cfg : SenderTorConfig) (authOk : Bool) :
    Except Unit Unit × List TorEff :=
  if ¬ cfg.use_tor then (.ok (), [])
  else if authOk then
    (.ok (), [TorEff.signalNewnym, TorEff.sleep cfg.circuit_build_timeout])
  else if cfg.force_tor then (.error (), []) else (.ok (), [])

/-! ## The dispatch loop (`EmailCampaign.send_campaign`,
`main.py` lines 377-429)

```
for template_name in templates:
    ...
    for i in range(0, len(recipients), batch_size):
        batch = recipients[i:i + batch_size]
        for recipient in batch:
            try: send_email(...); sleep(delay_between_emails)
            except: continue
        if i + batch_size < len(recipients):
            sleep(delay_between_batches)
```

Events are tagged with the index of the template being processed;
`ok t r` abstracts whether `send_email` succeeds for recipient `r` under
template `t` (on failure the exception is caught and the loop continues,
skipping only that recipient's inter-message sleep). -/

inductive DispatchEvent where
  | send (tpl recip : Nat) (ok : Bool)
  | emailDelay (tpl : Nat) (secs : Nat)
  | batchDelay (tpl : Nat) (secs : Nat)
  deriving Repr, DecidableEq

/-- Trace of the body of the innermost `for recipient in batch` loop. -/
def recipTrace (dE : Nat) (ok : Nat → Nat → Bool) (t r : Nat) :
    List DispatchEvent :=
  .send t r (ok t r) :: (if ok t r then [.emailDelay t dE] else [])

/-- Model of `range(0, n, step)` for `step ≥ 1`. -/
def pyRangeStep (n step : Nat) : List Nat :=
  (List.range ((n + step - 1) / step)).map (· * step)

/-- Trace of one template's batch loop (the two inner `for` loops). -/
def templateTrace (recips : List Nat) (bs dE dB : Nat)
    (ok : Nat → Nat → Bool) (t : Nat) : List DispatchEvent :=
  (pyRangeStep recips.length bs).flatMap (fun i =>
    ((recips.drop i).take bs).flatMap (recipTrace dE ok t) ++
      (if i + bs < recips.length then [.batchDelay t dB] else []))

/-- Trace of the whole `send_campaign` dispatch loop, for templates
`0, …, numT-1`. -/
def campaignTrace (numT : Nat) (recips : List Nat) (bs dE dB : Nat)
    (ok : Nat → Nat → Bool) : List DispatchEvent :=
  (List.range numT).flatMap (templateTrace recips bs dE dB ok)

/-- Specification-side shape of a template segment: the batch traces joined
with exactly one inter-batch delay *between* consecutive batches (and hence
none after the last batch). -/
def interBatches (d : DispatchEvent) : List (List DispatchEvent) →
    List DispatchEvent
  | [] => []
  | [b] => b
  | b :: bs => b ++ d :: interBatches d bs

/-- The batches of the recipient list (`recipients[i:i+bs]` slices). -/
def recipientBatches (bs : Nat) (recips : List Nat) : List (List Nat) :=
  chunksOf bs recips

/-- Trace of one batch. -/
def batchTrace (dE : Nat) (ok : Nat → Nat → Bool) (t : Nat)
    (batch : List Nat) : List DispatchEvent :=
  batch.flatMap (recipTrace dE ok t)

/-- The template index an event belongs to. -/
def tplOf : DispatchEvent → Nat
  | .send t _ _ => t
  | .emailDelay t _ => t
  | .batchDelay t _ => t

def isBatchDelay : DispatchEvent → Bool
  | .batchDelay _ _ => true
  | _ => false

def isSendOf (t r : Nat) : DispatchEvent → Bool
  | .send t' r' _ => t' = t ∧ r' = r
  | _ => false

/-- Is this a send event of template `t` (whatever the recipient/outcome)? -/
def isSendTpl (t : Nat) : DispatchEvent → Bool
  | .send t' _ _ => t' = t
  | _ => false

/-! ## Concrete instances used by witnesses and counterexamples -/

/-- One campaign-`c` message with pixel token `p1` and no events yet. -/
def c1State : TrackerState :=
  { emails := [{ email_id := "e1", campaign_id := "c",
                 recipient_email := "r@example.com", template_name := "t1",
                 sent_time := 5, status := "sent",
                 tracking_pixel_id := some "p1", bounce_info := none }],
    opens := [], clicks := [], bounces := [] }

/-- A reachable tracker state with one open and one click event, both with
client address `203.0.113.9`. -/
def c10State : TrackerState :=
  trackClick
    (trackOpen
      (createTrackingPixel
        (trackEmailSend (initDatabase ⟨[], [], [], []⟩)
          "e1" "c" "r@example.com" "t1" 5)
        "e1" "p1")
      "p1" (some "UA") (some "203.0.113.9") none "o1" 6)
    "e1" "http://x.example" (some "UA") (some "203.0.113.9") none "k1" 7

/-- The open row recorded in `c10State`. -/
def c10OpenRow : OpenRow :=
  { open_id := "o1", email_id := "e1", open_time := 6,
    user_agent := some "UA", ip_address := storedIp (some "203.0.113.9"),
    country := none, device_type := detectDeviceType (some "UA") }

/-- Tracker states reachable by the store's own write API, starting from the
(re)initialised database. -/
inductive ReachableTracker : TrackerState → Prop where
  | init (prev : TrackerState) : ReachableTracker (initDatabase prev)
  | send {s} (h : ReachableTracker s) (eid cid recip tname : String)
      (now : Nat) : ReachableTracker (trackEmailSend s eid cid recip tname now)
  | pixel {s} (h : ReachableTracker s) (eid pid : String) :
      ReachableTracker (createTrackingPixel s eid pid)
  | openEv {s} (h : ReachableTracker s) (pid : String)
      (ua ip country : Option String) (oid : String) (now : Nat) :
      ReachableTracker (trackOpen s pid ua ip country oid now)
  | clickEv {s} (h : ReachableTracker s) (eid purl : String)
      (ua ip country : Option String) (kid : String) (now : Nat) :
      ReachableTracker (trackClick s eid purl ua ip country kid now)
  | bounce {s} (h : ReachableTracker s) (eid btype breason : String)
      (bdesc : Option String) (bid : String) (now : Nat) :
      ReachableTracker (trackBounce s eid btype breason bdesc bid now)
  | cleanup {s} (h : ReachableTracker s) (cutoff : Nat) :
      ReachableTracker (cleanupOldData s cutoff)

/-- An `ip_address` column value is compliant when it is either `NULL` or
the SHA-256 hex digest of some non-empty raw address. -/
def hashedIpOk (v : Option String) : Prop :=
  v = none ∨ ∃ raw : String, raw ≠ "" ∧ v = some (sha256Hex raw.data).asString

/-! # Theorems

One main theorem per claim (C1-C10 of the review), with shared helper
lemmas first. -/

/-! ## C4 — transport retry policy -/

/-- If every attempt from `rc` on fails, the loop raises after exactly the
remaining `N - rc` attempts, sleeping the configured delay between
consecutive attempts. -/
theorem sendLoop_allFail (N d : Nat) (tr : Nat → Bool)
    (h : ∀ i, tr i = false) :
    ∀ m rc, N - rc = m → rc < N →
      sendLoop N d tr rc =
        { raised := true, attempts := N - rc,
          sleeps := List.replicate (N - rc - 1) d } := by
  intro m
  induction m with
  | zero => intro rc h0 hlt; omega
  | succ m ih =>
    intro rc hm hlt
    rw [sendLoop]
    rw [if_pos hlt, h rc]
    simp only [Bool.false_eq_true, if_false]
    by_cases h2 : rc + 1 < N
    · rw [if_pos h2, ih (rc + 1) (by omega) h2]
      have h3 : N - rc = (N - (rc + 1)) + 1 := by omega
      have h4 : N - rc - 1 = (N - (rc + 1) - 1) + 1 := by omega
      simp only [h3, h4, List.replicate_succ]
      have h5 : N - (rc + 1) + 1 - 1 = (N - (rc + 1) - 1) + 1 := by omega
      rw [h5, List.replicate_succ]
    · rw [if_neg h2]
      have h3 : N - rc = 1 := by omega
      simp [h3]

/-- If attempts `rc, …, j-1` fail and attempt `j` succeeds, the loop returns
normally after exactly `j - rc + 1` attempts with a delay between each. -/
theorem sendLoop_succeedsAt (N d : Nat) (tr : Nat → Bool) :
    ∀ m rc j, N - rc = m → rc ≤ j → j < N →
      (∀ i, rc ≤ i → i < j → tr i = false) → tr j = true →
      sendLoop N d tr rc =
        { raised := false, attempts := j - rc + 1,
          sleeps := List.replicate (j - rc) d } := by
  intro m
  induction m with
  | zero => intro rc j h0 hrj hj _ _; omega
  | succ m ih =>
    intro rc j hm hrj hj hfail hok
    rw [sendLoop]
    rw [if_pos (by omega : rc < N)]
    by_cases heq : rc = j
    · subst heq
      simp [hok]
    · rw [hfail rc le_rfl (by omega)]
      simp only [Bool.false_eq_true, if_false]
      rw [if_pos (by omega : rc + 1 < N)]
      rw [ih (rc + 1) j (by omega) (by omega) hj
            (fun i h1 h2 => hfail i (by omega) h2) hok]
      have h3 : j - rc + 1 = (j - (rc + 1) + 1) + 1 := by omega
      have h4 : j - rc = (j - (rc + 1)) + 1 := by omega
      simp only [h3, h4, List.replicate_succ]

/-- C4 (amended: `max_retries ≥ 1`): with `max_retries = N ≥ 1` and retry
delay `d`, if the transport fails the first `k-1` attempts and succeeds on
the `k`-th (`k ≤ N`), `Send` returns success after exactly `k` attempts with
`k-1` delays of `d` between them; if the transport fails on every attempt,
`Send` raises after exactly `N` attempts with `N-1` delays of `d` between
them.  (This is the shared retry loop of `_send_via_smtp` and
`_send_via_api`.) -/
theorem retry_policy_correct (N d : Nat) (tr : Nat → Bool) (hN : 1 ≤ N) :
    (∀ k, 1 ≤ k → k ≤ N → (∀ i, i < k - 1 → tr i = false) →
      tr (k - 1) = true →
      sendWithRetries N d tr =
        { raised := false, attempts := k, sleeps := List.replicate (k - 1) d }) ∧
    ((∀ i, tr i = false) →
      sendWithRetries N d tr =
        { raised := true, attempts := N, sleeps := List.replicate (N - 1) d }) := by
  constructor
  · intro k hk1 hkN hfail hok
    have h := sendLoop_succeedsAt N d tr N 0 (k - 1) rfl (by omega)
      (by omega) (fun i _ h2 => hfail i h2) hok
    rw [sendWithRetries, h]
    have h1 : k - 1 - 0 + 1 = k := by omega
    have h2 : k - 1 - 0 = k - 1 := by omega
    rw [h1, h2]
  · intro hfail
    have h := sendLoop_allFail N d tr hfail N 0 rfl (by omega)
    rw [sendWithRetries, h]
    simp

/-- C4 counterexample to the claim as stated (quantified over *every*
configured `max_retries`): with `max_retries = 0` and a transport that fails
every attempt, `Send` does not raise at all — the `while` loop body never
runs, zero attempts are made, and the function falls through returning
normally — where the claim requires a raise after exactly `N = 0` attempts. -/
theorem retry_policy_zero_counterexample :
    sendWithRetries 0 5 (fun _ => false) =
      { raised := false, attempts := 0, sleeps := [] } ∧
    ¬ (sendWithRetries 0 5 (fun _ => false)).raised = true := by
  have h : sendWithRetries 0 5 (fun _ => false) =
      { raised := false, attempts := 0, sleeps := [] } := by
    rw [sendWithRetries, sendLoop]
    simp
  exact ⟨h, by rw [h]; simp⟩

/-- C4 witness: `N = 3`, transport failing attempt 0 and succeeding on
attempt 1 gives success after 2 attempts and one sleep; `N = 2` with an
always-failing transport raises after exactly 2 attempts and one sleep. -/
theorem retry_policy_witness :
    sendWithRetries 3 7 (fun i => i == 1) =
      { raised := false, attempts := 2, sleeps := [7] } ∧
    sendWithRetries 2 7 (fun _ => false) =
      { raised := true, attempts := 2, sleeps := [7] } := by
  constructor
  · have h := (retry_policy_correct 3 7 (fun i => i == 1) (by omega)).1 2
      (by omega) (by omega)
      (fun i hi => by interval_cases i; rfl) (by rfl)
    simpa using h
  · have h := (retry_policy_correct 2 7 (fun _ => false) (by omega)).2
      (fun _ => rfl)
    simpa using h

/-! ## C8 — campaign statistics never divide by zero -/

/-- A guarded rate expression is always defined. -/
theorem rate_isSome (num den : Nat) :
    (if den > 0 then (pyDiv (num : ℚ) (den : ℚ)).map (· * 100)
     else some 0).isSome = true := by
  by_cases h : 0 < den
  · have hne : (den : ℚ) ≠ 0 := by
      exact_mod_cast Nat.pos_iff_ne_zero.mp h
    simp [h, pyDiv, hne]
  · simp [h]

/-- A guarded rate expression is `0` when its denominator is `0`. -/
theorem rate_zero (num den : Nat) (h : den = 0) :
    (if den > 0 then (pyDiv (num : ℚ) (den : ℚ)).map (· * 100)
     else some 0) = some 0 := by
  subst h; simp

/-- C8: for every tracker state, campaign identifier and optional date
range, each derived rate of `get_campaign_stats` is `0` whenever its
denominator is `0` (bounce/open/click rates when `total_sent = 0`,
click-to-open rate when `unique_opens = 0`), and no rate is ever a division
fault (`none`). -/
theorem stats_rates_safe (s : TrackerState) (cid : String)
    (range : Option (Nat × Nat)) :
    ((getCampaignStats s cid range).total_sent = 0 →
      (getCampaignStats s cid range).bounce_percent = some 0 ∧
      (getCampaignStats s cid range).open_percent = some 0 ∧
      (getCampaignStats s cid range).click_percent = some 0) ∧
    ((getCampaignStats s cid range).unique_opens = 0 →
      (getCampaignStats s cid range).click_to_open_percent = some 0) ∧
    (getCampaignStats s cid range).bounce_percent.isSome = true ∧
    (getCampaignStats s cid range).open_percent.isSome = true ∧
    (getCampaignStats s cid range).click_percent.isSome = true ∧
    (getCampaignStats s cid range).click_to_open_percent.isSome = true := by
  simp only [getCampaignStats]
  refine ⟨fun h => ⟨rate_zero _ _ h, rate_zero _ _ h, rate_zero _ _ h⟩,
    fun h => rate_zero _ _ h, rate_isSome _ _, rate_isSome _ _,
    rate_isSome _ _, rate_isSome _ _⟩

/-- C8 witness: on the empty store (a campaign with zero sent messages) all
four rates are `0`. -/
theorem stats_rates_safe_witness :
    (getCampaignStats ⟨[], [], [], []⟩ "c" none).bounce_percent = some 0 ∧
    (getCampaignStats ⟨[], [], [], []⟩ "c" none).open_percent = some 0 ∧
    (getCampaignStats ⟨[], [], [], []⟩ "c" none).click_percent = some 0 ∧
    (getCampaignStats ⟨[], [], [], []⟩ "c" none).click_to_open_percent = some 0 := by
  have h := stats_rates_safe ⟨[], [], [], []⟩ "c" none
  exact ⟨(h.1 rfl).1, (h.1 rfl).2.1, (h.1 rfl).2.2, h.2.1 rfl⟩

/-! ## C3 — identity-refresh rate limiting -/

/-- C3 (amended): the rate limit lives in `TorHandler.refresh_circuit` — a
request inside the minimum interval returns `False` ("not due") with no
state change, no NEWNYM signal, no IP probe and no settle sleep.  The send
path, however, calls `EmailSender.refresh_tor_circuit`, which keeps no
last-refresh state: whenever Tor is in use and the controller
authenticates, it sends NEWNYM and sleeps the settle time, no matter how
recently the previous refresh happened. -/
theorem refresh_rate_limited_handler_only (st : TorHandlerState) (now : Int)
    (w : TorWorld) (cfg : SenderTorConfig) :
    (st.enabled = true → now - st.last_refresh < st.refresh_interval →
      refreshCircuit st now w =
        { result := .ok false, state := st, effects := [] }) ∧
    (cfg.use_tor = true →
      senderRefreshTorCircuit cfg true =
        (.ok (), [TorEff.signalNewnym, TorEff.sleep cfg.circuit_build_timeout])) := by
  constructor
  · intro hen hdue
    simp [refreshCircuit, hen, hdue]
  · intro hu
    simp [senderRefreshTorCircuit, hu]

/-- C3 counterexample to the claim as stated: a send-path refresh issued at
the very moment of the previous refresh (`now - last = 0 < 600`, i.e. well
inside any configured minimum interval) still sends the NEWNYM signal and
still sleeps the settle time — it is not a "not due" no-op. -/
theorem refresh_send_path_not_rate_limited :
    ((1000 : Int) - 1000 < (600 : Int)) ∧
    senderRefreshTorCircuit
        { use_tor := true, circuit_build_timeout := 10, force_tor := false }
        true =
      (.ok (), [TorEff.signalNewnym, TorEff.sleep 10]) :=
  ⟨by norm_num, rfl⟩

/-- C3 witness: a handler refresh 200s after the last one, with a 600s
interval, is a no-op; and a sender-side refresh with Tor enabled signals and
sleeps. -/
theorem refresh_rate_limited_handler_only_witness :
    (refreshCircuit
        { enabled := true, refresh_interval := 600, circuit_timeout := 10,
          force_tor := false, last_refresh := 500 }
        700 { authOk := true, oldIp := none, newIp := none } =
      { result := .ok false,
        state := { enabled := true, refresh_interval := 600,
                   circuit_timeout := 10, force_tor := false,
                   last_refresh := 500 },
        effects := [] }) ∧
    senderRefreshTorCircuit
        { use_tor := true, circuit_build_timeout := 10, force_tor := false }
        true =
      (.ok (), [TorEff.signalNewnym, TorEff.sleep 10]) := by
  have h := refresh_rate_limited_handler_only
    { enabled := true, refresh_interval := 600, circuit_timeout := 10,
      force_tor := false, last_refresh := 500 }
    700 { authOk := true, oldIp := none, newIp := none }
    { use_tor := true, circuit_build_timeout := 10, force_tor := false }
  exact ⟨h.1 rfl (by norm_num), h.2 rfl⟩

/-! ## C2 — sent-message rows are never deleted (except…) -/

/-- C2 counterexample to the claim as stated: constructing the tracking
store over an existing database does *not* leave previously recorded rows
in place — `_init_database` drops the tables, so a one-row store comes back
empty. -/
theorem tracker_init_drops_rows :
    (initDatabase c1State).emails = [] ∧ c1State.emails.length = 1 ∧
    ¬ (initDatabase c1State).emails = c1State.emails :=
  ⟨rfl, rfl, by decide⟩

/-- C2 (amended): apart from `_init_database` (which drops and recreates all
tables) and the age-based purge of `cleanup_old_data` (which removes exactly
the rows older than the cutoff), no tracking-store operation deletes a
`SentMessage` row: sends append, pixel minting and bounce processing only
update fields of existing rows, and open/click recording leaves the `emails`
table untouched. -/
theorem tracker_rows_persist (s : TrackerState)
    (eid cid recip tname pid purl btype breason bid oid kid : String)
    (bdesc : Option String) (ua ip country : Option String)
    (now cutoff : Nat) :
    (trackEmailSend s eid cid recip tname now).emails.map (·.email_id) =
      s.emails.map (·.email_id) ++ [eid] ∧
    (createTrackingPixel s eid pid).emails.map (·.email_id) =
      s.emails.map (·.email_id) ∧
    (trackOpen s pid ua ip country oid now).emails = s.emails ∧
    (trackClick s eid purl ua ip country kid now).emails = s.emails ∧
    (trackBounce s eid btype breason bdesc bid now).emails.map (·.email_id) =
      s.emails.map (·.email_id) ∧
    (cleanupOldData s cutoff).emails =
      s.emails.filter (fun e => ¬ e.sent_time < cutoff) := by
  refine ⟨by simp [trackEmailSend], ?_, ?_, by simp [trackClick], ?_, by simp [cleanupOldData]⟩
  · simp only [createTrackingPixel, List.map_map]
    apply List.map_congr_left
    intro e _
    by_cases h : e.email_id = eid <;> simp [h]
  · rcases h : s.emails.find? (fun e => e.tracking_pixel_id = some pid) with _ | e <;>
      simp [trackOpen, h]
  · simp only [trackBounce, List.map_map]
    apply List.map_congr_left
    intro e _
    by_cases h : e.email_id = eid <;> simp [h]

/-! ## C1 — unique-opens counting -/

/-- C1: the code computes `unique_opens` with `SELECT COUNT(DISTINCT
e.email_id) FROM emails e LEFT JOIN opens o …`, which counts every campaign
message whether or not it was opened.  On a campaign with one sent, never
opened message, `unique_opens` is already `1`; recording a first open for
its pixel token leaves it at `1` (the claim requires an increase of exactly
1), and a second open also leaves it at `1`.  The open row itself *is*
recorded (`total_opens` becomes `1`), so it is the statistics query that is
at fault, not `track_open`; and in general `unique_opens` is entirely
independent of the `opens` table. -/
theorem stats_unique_opens_ignores_opens :
    (getCampaignStats c1State "c" none).unique_opens = 1 ∧
    (getCampaignStats (trackOpen c1State "p1" none none none "o1" 6)
      "c" none).unique_opens = 1 ∧
    (getCampaignStats
      (trackOpen (trackOpen c1State "p1" none none none "o1" 6)
        "p1" none none none "o2" 7) "c" none).unique_opens = 1 ∧
    (getCampaignStats (trackOpen c1State "p1" none none none "o1" 6)
      "c" none).total_opens = 1 ∧
    (∀ (s : TrackerState) (cid : String) (os : List OpenRow),
      (getCampaignStats { s with opens := os } cid none).unique_opens =
        (getCampaignStats s cid none).unique_opens) := by
  refine ⟨by decide, by decide, by decide, by decide, ?_⟩
  intro s cid os
  simp [getCampaignStats]

/-! ## C10 — client addresses are stored hashed -/

theorem length_flatMap_byteHex (l : List Nat) :
    (l.flatMap byteHex).length = 2 * l.length := by
  induction l with
  | nil => rfl
  | cons b bs ih =>
    simp only [List.flatMap_cons, List.length_append, ih, byteHex]
    simp; omega

theorem sha256Bytes_length (msg : List Nat) :
    (sha256Bytes msg).length = 32 := by
  simp [sha256Bytes, wordToBytes]

/-- A SHA-256 hex digest has 64 characters. -/
theorem sha256Hex_length (s : List Char) : (sha256Hex s).length = 64 := by
  rw [sha256Hex, length_flatMap_byteHex, sha256Bytes_length]

/-- C10: in every state reachable through the store's API, every open and
click row's `ip_address` is either `NULL` or the SHA-256 hex digest of some
non-empty raw address; moreover a non-empty raw address is stored exactly as
its digest, which (having 64 characters) is never the raw address itself for
any address of a different length. -/
theorem tracker_ip_addresses_hashed (s : TrackerState)
    (h : ReachableTracker s) :
    (∀ o ∈ s.opens, hashedIpOk o.ip_address) ∧
    (∀ c ∈ s.clicks, hashedIpOk c.ip_address) ∧
    (∀ ip : String, ip ≠ "" →
      storedIp (some ip) = some (sha256Hex ip.data).asString) ∧
    (∀ ip : String, ip ≠ "" → ip.length ≠ 64 →
      storedIp (some ip) ≠ some ip) := by
  have hstored : ∀ ip : String, ip ≠ "" →
      storedIp (some ip) = some (sha256Hex ip.data).asString := by
    intro ip hip
    simp [storedIp, hip]
  have hnotraw : ∀ ip : String, ip ≠ "" → ip.length ≠ 64 →
      storedIp (some ip) ≠ some ip := by
    intro ip hip hlen heq
    rw [hstored ip hip] at heq
    have h1 : (sha256Hex ip.data).asString = ip := by
      simpa using heq
    have h2 : ((sha256Hex ip.data).asString).length = ip.length :=
      congrArg String.length h1
    have h3 : ((sha256Hex ip.data).asString).length =
        (sha256Hex ip.data).length := rfl
    rw [h3, sha256Hex_length] at h2
    exact hlen h2.symm
  have hokIp : ∀ ip : Option String, hashedIpOk (storedIp ip) := by
    intro ip
    match ip with
    | none => exact Or.inl rfl
    | some v =>
      by_cases hv : v = ""
      · exact Or.inl (by simp [storedIp, hv])
      · exact Or.inr ⟨v, hv, by simp [storedIp, hv]⟩
  have hmain : (∀ o ∈ s.opens, hashedIpOk o.ip_address) ∧
      (∀ c ∈ s.clicks, hashedIpOk c.ip_address) := by
    induction h with
    | init prev => exact ⟨by simp [initDatabase], by simp [initDatabase]⟩
    | send h eid cid recip tname now ih => simpa [trackEmailSend] using ih
    | pixel h eid pid ih => simpa [createTrackingPixel] using ih
    | @openEv s h pid ua ip country oid now ih =>
      constructor
      · intro o ho
        simp only [trackOpen] at ho
        rcases hfind : s.emails.find?
            (fun e => e.tracking_pixel_id = some pid) with _ | e
        · rw [hfind] at ho
          exact ih.1 o ho
        · rw [hfind] at ho
          simp only [List.mem_append, List.mem_singleton] at ho
          rcases ho with ho | ho
          · exact ih.1 o ho
          · subst ho
            exact hokIp ip
      · intro c hc
        simp only [trackOpen] at hc
        rcases hfind : s.emails.find?
            (fun e => e.tracking_pixel_id = some pid) with _ | e
        · rw [hfind] at hc
          exact ih.2 c hc
        · rw [hfind] at hc
          exact ih.2 c hc
    | @clickEv s h eid purl ua ip country kid now ih =>
      constructor
      · intro o ho
        exact ih.1 o (by simpa [trackClick] using ho)
      · intro c hc
        simp only [trackClick, List.mem_append, List.mem_singleton] at hc
        rcases hc with hc | hc
        · exact ih.2 c hc
        · subst hc
          exact hokIp ip
    | bounce h eid btype breason bdesc bid now ih =>
      simpa [trackBounce] using ih
    | cleanup h cutoff ih =>
      constructor
      · intro o ho
        simp only [cleanupOldData, List.mem_filter] at ho
        exact ih.1 o ho.1
      · intro c hc
        simp only [cleanupOldData, List.mem_filter] at hc
        exact ih.2 c hc.1
  exact ⟨hmain.1, hmain.2, hstored, hnotraw⟩

/-- C10 witness: the open row recorded for client address `203.0.113.9` in a
concretely reachable state is hash-compliant, and that address is stored
exactly as its SHA-256 hex digest. -/
theorem tracker_ip_addresses_hashed_witness :
    hashedIpOk c10OpenRow.ip_address ∧
    storedIp (some "203.0.113.9") =
      some (sha256Hex "203.0.113.9".data).asString := by
  have hreach : ReachableTracker c10State :=
    .clickEv (.openEv (.pixel (.send (.init ⟨[], [], [], []⟩)
      "e1" "c" "r@example.com" "t1" 5) "e1" "p1")
      "p1" (some "UA") (some "203.0.113.9") none "o1" 6)
      "e1" "http://x.example" (some "UA") (some "203.0.113.9") none "k1" 7
  have h := tracker_ip_addresses_hashed c10State hreach
  refine ⟨h.1 c10OpenRow ?_, h.2.2.1 "203.0.113.9" (by decide)⟩
  show c10OpenRow ∈ c10State.opens
  have : c10State.opens = [c10OpenRow] := rfl
  rw [this]
  exact List.mem_singleton.mpr rfl

/-! ## C7 — eager, complete missing-attachment reporting -/

theorem leadsWith_append (p b : List Char) : leadsWith p (p ++ b) = true := by
  induction p with
  | nil => rfl
  | cons c cs ih => simp [leadsWith, ih]

/-- A pattern occurs in any string that displays it. -/
theorem occursIn_append (p a b : List Char) :
    occursIn p (a ++ p ++ b) = true := by
  induction a with
  | nil =>
    simp only [List.nil_append]
    cases h : p ++ b with
    | nil =>
      have hp : p = [] := (List.append_eq_nil.mp h).1
      simp [occursIn, hp, leadsWith]
    | cons c cs =>
      rw [occursIn, ← h, leadsWith_append]
      simp
  | cons x xs ih =>
    show occursIn p (x :: (xs ++ p ++ b)) = true
    rw [occursIn, ih, Bool.or_true]

/-- Every element of a list appears displayed in the flattened
interspersion. -/
theorem mem_intersperse_flatten (sep x : List Char) (l : List (List Char))
    (hx : x ∈ l) :
    ∃ A B, (List.intersperse sep l).flatten = A ++ x ++ B := by
  induction l with
  | nil => cases hx
  | cons y ys ih =>
    cases ys with
    | nil =>
      have : x = y := by simpa using hx
      subst this
      exact ⟨[], [], by simp⟩
    | cons y2 ys' =>
      rcases List.mem_cons.mp hx with h | h
      · subst h
        exact ⟨[], sep ++ (List.intersperse sep (y2 :: ys')).flatten, by simp⟩
      · rcases ih h with ⟨A, B, hAB⟩
        exact ⟨y ++ sep ++ A, B, by simp [hAB]⟩

/-- C7: when a template declares attachments and at least one declared file
is absent from the attachment directory, loading fails — at load time, in
`_load_template` itself — with the missing-attachment error carrying
*exactly* the declared-order list of all absent names; every absent name is
in that list (never a proper subset), and every name in the list is spelled
out in the error message. -/
theorem template_missing_attachments
    (b64 : List Char → Option (List Char)) (ex : List Char → Bool)
    (dir : List Char) (rawLines : List (List Char))
    (hb : (parseTemplate rawLines).is_base64 = true →
      (b64 ((List.intersperse ['\n']
        (parseTemplate rawLines).content_lines).flatten)).isSome = true)
    (a : List Char) (ha : a ∈ (parseTemplate rawLines).attachments)
    (hax : ex (osPathJoin dir a) = false) :
    loadTemplate b64 ex dir rawLines =
      .error (.missingAttachments
        ((parseTemplate rawLines).attachments.filter
          (fun x => ! ex (osPathJoin dir x))) dir) ∧
    (∀ x ∈ (parseTemplate rawLines).attachments, ex (osPathJoin dir x) = false →
      x ∈ (parseTemplate rawLines).attachments.filter
        (fun x => ! ex (osPathJoin dir x))) ∧
    (∀ x ∈ (parseTemplate rawLines).attachments.filter
        (fun x => ! ex (osPathJoin dir x)),
      occursIn x (missingMsg
        ((parseTemplate rawLines).attachments.filter
          (fun x => ! ex (osPathJoin dir x))) dir) = true) := by
  have hmem : a ∈ (parseTemplate rawLines).attachments.filter
      (fun x => ! ex (osPathJoin dir x)) :=
    List.mem_filter.mpr ⟨ha, by simp [hax]⟩
  have hvalid : validateAttachments ex dir (parseTemplate rawLines).attachments =
      .error (.missingAttachments
        ((parseTemplate rawLines).attachments.filter
          (fun x => ! ex (osPathJoin dir x))) dir) := by
    rw [validateAttachments]
    rw [if_neg (by intro h0; rw [h0] at ha; cases ha)]
    rw [if_neg (by intro h0; rw [h0] at hmem; cases hmem)]
  refine ⟨?_, ?_, ?_⟩
  · rw [loadTemplate]
    cases hb64 : (parseTemplate rawLines).is_base64 with
    | false => simp [hvalid, Except.map]
    | true =>
      rcases ho : b64 ((List.intersperse ['\n']
          (parseTemplate rawLines).content_lines).flatten) with _ | c
      · rw [hb64, ho] at hb
        simp at hb
      · simp [ho, hvalid, Except.map]
  · intro x hx hex
    exact List.mem_filter.mpr ⟨hx, by simp [hex]⟩
  · intro x hx
    rcases mem_intersperse_flatten ", ".data x _ hx with ⟨A, B, hAB⟩
    rw [missingMsg, hAB]
    have : "Missing attachments: ".data ++ (A ++ x ++ B) ++
        (" in directory ".data ++ dir) =
        ("Missing attachments: ".data ++ A) ++ x ++
          (B ++ (" in directory ".data ++ dir)) := by
      simp
    rw [List.append_assoc, this]
    exact occursIn_append _ _ _

/-- C7 witness: a template declaring `a.pdf, b.pdf` with neither file
present fails to load with the error enumerating both names, and both names
appear in the rendered message. -/
theorem template_missing_attachments_witness :
    loadTemplate (fun _ => none) (fun _ => false) "att".data
        ["Attachments: a.pdf, b.pdf".data, "".data, "Hello".data] =
      .error (.missingAttachments ["a.pdf".data, "b.pdf".data] "att".data) ∧
    occursIn "a.pdf".data
      (missingMsg ["a.pdf".data, "b.pdf".data] "att".data) = true ∧
    occursIn "b.pdf".data
      (missingMsg ["a.pdf".data, "b.pdf".data] "att".data) = true := by
  have h := template_missing_attachments (fun _ => none) (fun _ => false)
    "att".data ["Attachments: a.pdf, b.pdf".data, "".data, "Hello".data]
    (by decide) "a.pdf".data (by decide) (by decide)
  refine ⟨h.1, ?_, ?_⟩
  · exact h.2.2 "a.pdf".data (by decide)
  · exact h.2.2 "b.pdf".data (by decide)

/-! ## C9 — placeholder substitution -/

/-- Python `str.replace` leaves a string with no occurrence of the pattern
unchanged. -/
theorem pyReplaceAux_not_occurs (old new : List Char) :
    ∀ fuel s, occursIn old s = false → pyReplaceAux old new fuel s = s := by
  intro fuel
  induction fuel with
  | zero => intro s _; cases s <;> rfl
  | succ fuel ih =>
    intro s hocc
    cases s with
    | nil => rfl
    | cons c cs =>
      rw [occursIn] at hocc
      simp only [Bool.or_eq_false_iff] at hocc
      rw [pyReplaceAux, if_neg (by simp [hocc.1]), ih cs hocc.2]

theorem pyReplace_not_occurs (old new s : List Char)
    (h : occursIn old s = false) : pyReplace old new s = s := by
  rw [pyReplace]
  split
  · rfl
  · exact pyReplaceAux_not_occurs old new s.length s h

/-- On a single-key map, the sequential code substitution and the
simultaneous specification substitution agree. -/
theorem pyReplaceAux_eq_simSubstAux (k v : List Char) :
    ∀ fuel s, pyReplaceAux (placeholderToken k) v fuel s =
      simSubstAux [(k, v)] fuel s := by
  intro fuel
  induction fuel with
  | zero => intro s; cases s <;> rfl
  | succ fuel ih =>
    intro s
    cases s with
    | nil => rfl
    | cons c cs =>
      rw [pyReplaceAux, simSubstAux]
      cases hl : leadsWith (placeholderToken k) (c :: cs) with
      | true => simp [List.find?, hl, ih]
      | false => simp [List.find?, hl, ih]

/-- C9 (amended): `replace_placeholders` applies the map *sequentially* (in
iteration order), each step replacing every occurrence of that key's token
in the current strings; consequently (i) strings containing no mapped token
— in particular, placeholders whose key is not in the map — are returned
byte-for-byte unchanged, and (ii) for single-key maps the result is exactly
the simultaneous every-occurrence substitution of the claim.  (For multi-key
maps a later key can rewrite text introduced by an earlier key's value, see
the counterexample.)  No input raises an error. -/
theorem replace_placeholders_correct
    (pairs : List (List Char × List Char)) (subject content k v : List Char) :
    ((∀ kv ∈ pairs, occursIn (placeholderToken kv.1) subject = false) →
     (∀ kv ∈ pairs, occursIn (placeholderToken kv.1) content = false) →
      replacePlaceholders pairs subject content = (subject, content)) ∧
    replacePlaceholders [(k, v)] subject content =
      (simSubst [(k, v)] subject, simSubst [(k, v)] content) := by
  constructor
  · intro hs hc
    induction pairs with
    | nil => rfl
    | cons kv rest ih =>
      rw [replacePlaceholders, List.foldl_cons,
        pyReplace_not_occurs _ _ _ (hs kv (List.mem_cons_self kv rest)),
        pyReplace_not_occurs _ _ _ (hc kv (List.mem_cons_self kv rest))]
      exact ih (fun x hx => hs x (List.mem_cons_of_mem kv hx))
        (fun x hx => hc x (List.mem_cons_of_mem kv hx))
  · rw [replacePlaceholders, List.foldl_cons, List.foldl_nil, simSubst, simSubst]
    rw [pyReplace, pyReplace]
    rw [if_neg (by simp [placeholderToken]), if_neg (by simp [placeholderToken])]
    rw [pyReplaceAux_eq_simSubstAux, pyReplaceAux_eq_simSubstAux]

/-- C9 counterexample to the claim as stated (simultaneous, every map): with
map order `A ↦ "\x7b\x7b.B\x7d\x7d"`, `B ↦ "x"`, the subject
`"\x7b\x7b.A\x7d\x7d"` renders as `"x"` — the later key rewrites the value
just substituted for the earlier key — while replacing every occurrence of
each token of the *input* and leaving all other characters unchanged would
give `"\x7b\x7b.B\x7d\x7d"`. -/
theorem replace_placeholders_chain_counterexample :
    (replacePlaceholders [(['A'], placeholderToken ['B']), (['B'], ['x'])]
      (placeholderToken ['A']) []).1 = ['x'] ∧
    simSubst [(['A'], placeholderToken ['B']), (['B'], ['x'])]
      (placeholderToken ['A']) = placeholderToken ['B'] ∧
    ¬ ((replacePlaceholders [(['A'], placeholderToken ['B']), (['B'], ['x'])]
        (placeholderToken ['A']) []).1 =
      simSubst [(['A'], placeholderToken ['B']), (['B'], ['x'])]
        (placeholderToken ['A'])) := by decide

/-- C9 witness: a subject/body with no mapped token is unchanged, and a
singleton map substitutes simultaneously. -/
theorem replace_placeholders_correct_witness :
    replacePlaceholders [(['A'], ['x'])] "hi ".data "there".data =
      ("hi ".data, "there".data) ∧
    replacePlaceholders [("FirstName".data, "Ada".data)]
        "Hi ".data "dear".data =
      (simSubst [("FirstName".data, "Ada".data)] "Hi ".data,
       simSubst [("FirstName".data, "Ada".data)] "dear".data) := by
  constructor
  · exact (replace_placeholders_correct [(['A'], ['x'])] "hi ".data
      "there".data [] []).1 (by decide) (by decide)
  · exact (replace_placeholders_correct [] "Hi ".data "dear".data
      "FirstName".data "Ada".data).2

/-! ## C5 — dispatch-loop batching, ordering, pacing and fault isolation -/

theorem pyRangeStep_nil (step : Nat) : pyRangeStep 0 step = [] := by
  unfold pyRangeStep
  have h : (0 + step - 1) / step = 0 := by
    rcases Nat.eq_zero_or_pos step with h | h
    · simp [h]
    · exact Nat.div_eq_of_lt (by omega)
  rw [h]
  rfl

/-- The list `range(0, n, step)` for `n ≥ 1` starts at `0` and continues with the
range over the rest, shifted by one step. -/
theorem pyRangeStep_cons (n step : Nat) (hn : 1 ≤ n) (hs : 1 ≤ step) :
    pyRangeStep n step = 0 :: (pyRangeStep (n - step) step).map (· + step) := by
  unfold pyRangeStep
  have hc : (n + step - 1) / step = ((n - step) + step - 1) / step + 1 := by
    rcases le_or_lt n step with h | h
    · have h0 : n - step = 0 := by omega
      rw [h0]
      have e1 : (n + step - 1) / step = 1 :=
        Nat.div_eq_of_lt_le (by omega) (by omega)
      have e2 : (0 + step - 1) / step = 0 := Nat.div_eq_of_lt (by omega)
      rw [e1, e2]
    · have e : n + step - 1 = ((n - step) + step - 1) + step := by omega
      rw [e, Nat.add_div_right _ (by omega)]
  rw [hc, List.range_succ_eq_map]
  simp only [List.map_cons, Nat.zero_mul, List.map_map]
  congr 1
  apply List.map_congr_left
  intro i _
  simp [Nat.succ_mul]

theorem chunksOf_nil (bs : Nat) : chunksOf bs ([] : List Nat) = [] := by
  rw [chunksOf]

theorem chunksOf_cons (bs : Nat) (c : Nat) (cs : List Nat) (h : 1 ≤ bs) :
    chunksOf bs (c :: cs) =
      (c :: cs).take bs :: chunksOf bs ((c :: cs).drop bs) := by
  rw [chunksOf]
  rw [dif_neg (by omega)]

theorem interBatches_cons_of_ne (d : DispatchEvent)
    (b : List DispatchEvent) (l : List (List DispatchEvent)) (h : l ≠ []) :
    interBatches d (b :: l) = b ++ d :: interBatches d l := by
  cases l with
  | nil => exact absurd rfl h
  | cons k ks => rfl

theorem flatMap_congr {α β : Type} (l : List α) (f g : α → List β)
    (h : ∀ x ∈ l, f x = g x) : l.flatMap f = l.flatMap g := by
  induction l with
  | nil => rfl
  | cons x xs ih =>
    rw [List.flatMap_cons, List.flatMap_cons, h x (List.mem_cons_self x xs),
      ih (fun y hy => h y (List.mem_cons_of_mem x hy))]

theorem flatMap_map_eq_flatten_map (L : List (List Nat))
    (g : Nat → DispatchEvent) :
    L.flatMap (fun b => b.map g) = L.flatten.map g := by
  induction L with
  | nil => rfl
  | cons b Ls ih =>
    rw [List.flatMap_cons, List.flatten_cons, List.map_append, ih]

/-- The inner two loops of `send_campaign` produce exactly the batch traces
joined by single inter-batch delays. -/
theorem templateTrace_eq_interBatches (bs dE dB : Nat)
    (ok : Nat → Nat → Bool) (t : Nat) (hbs : 1 ≤ bs) :
    ∀ m recips, recips.length ≤ m →
      templateTrace recips bs dE dB ok t =
        interBatches (.batchDelay t dB)
          ((chunksOf bs recips).map (batchTrace dE ok t)) := by
  intro m
  induction m with
  | zero =>
    intro recips h
    have h0 : recips = [] := List.length_eq_zero.mp (by omega)
    subst h0
    simp [templateTrace, pyRangeStep_nil, chunksOf_nil, interBatches]
  | succ m ih =>
    intro recips hlen
    cases recips with
    | nil => simp [templateTrace, pyRangeStep_nil, chunksOf_nil, interBatches]
    | cons c cs =>
      have hn : 1 ≤ (c :: cs).length := by simp
      have hdroplen : ((c :: cs).drop bs).length = (c :: cs).length - bs :=
        List.length_drop bs (c :: cs)
      simp only [templateTrace]
      rw [pyRangeStep_cons _ bs hn hbs, List.flatMap_cons, List.flatMap_map]
      have hrest :
          (pyRangeStep ((c :: cs).length - bs) bs).flatMap
            (fun i =>
              (((c :: cs).drop (i + bs)).take bs).flatMap (recipTrace dE ok t) ++
                (if i + bs + bs < (c :: cs).length then
                  [DispatchEvent.batchDelay t dB] else [])) =
          templateTrace ((c :: cs).drop bs) bs dE dB ok t := by
        simp only [templateTrace, hdroplen]
        apply flatMap_congr
        intro i _
        have h1 : (c :: cs).drop (i + bs) = ((c :: cs).drop bs).drop i := by
          rw [List.drop_drop]
          congr 1
          omega
        rw [h1]
        congr 1
        apply if_congr _ rfl rfl
        omega
      rw [hrest, ih ((c :: cs).drop bs) (by rw [hdroplen]; omega)]
      rw [chunksOf_cons _ _ _ hbs]
      cases hcs : (c :: cs).drop bs with
      | nil =>
        have hlen2 := congrArg List.length hcs
        rw [List.length_drop] at hlen2
        simp only [List.length_nil] at hlen2
        rw [chunksOf_nil]
        simp only [List.map_cons, List.map_nil]
        rw [if_neg (by omega : ¬ (0 + bs < (c :: cs).length))]
        simp [interBatches, batchTrace]
      | cons d ds =>
        have hlen2 := congrArg List.length hcs
        rw [List.length_drop] at hlen2
        simp only [List.length_cons] at hlen2
        have hpos : 0 + bs < (c :: cs).length := by
          simp only [List.length_cons] at hlen2 ⊢
          omega
        rw [List.map_cons,
          interBatches_cons_of_ne _ _ _
            (by rw [chunksOf_cons _ _ _ hbs]; simp)]
        rw [if_pos hpos]
        simp [batchTrace, List.append_assoc, List.singleton_append]

/-- Batches are the |recips|/bs slices: nonempty, at most `bs` long, and
they concatenate back to the recipient list in order. -/
theorem chunksOf_flatten (bs : Nat) (hbs : 1 ≤ bs) :
    ∀ m (l : List Nat), l.length ≤ m → (chunksOf bs l).flatten = l := by
  intro m
  induction m with
  | zero =>
    intro l h
    have h0 : l = [] := List.length_eq_zero.mp (by omega)
    subst h0
    simp [chunksOf_nil]
  | succ m ih =>
    intro l hlen
    cases l with
    | nil => simp [chunksOf_nil]
    | cons c cs =>
      rw [chunksOf_cons _ _ _ hbs]
      simp only [List.flatten_cons]
      rw [ih ((c :: cs).drop bs) (by simp [List.length_drop] at hlen ⊢; omega)]
      exact List.take_append_drop bs (c :: cs)

theorem chunksOf_sizes (bs : Nat) (hbs : 1 ≤ bs) :
    ∀ m (l : List Nat), l.length ≤ m →
      ∀ b ∈ chunksOf bs l, b ≠ [] ∧ b.length ≤ bs := by
  intro m
  induction m with
  | zero =>
    intro l h b hb
    have h0 : l = [] := List.length_eq_zero.mp (by omega)
    subst h0
    rw [chunksOf_nil] at hb
    cases hb
  | succ m ih =>
    intro l hlen b hb
    cases l with
    | nil => rw [chunksOf_nil] at hb; cases hb
    | cons c cs =>
      rw [chunksOf_cons _ _ _ hbs] at hb
      rcases List.mem_cons.mp hb with h | h
      · subst h
        constructor
        · have : ((c :: cs).take bs).length = min bs (c :: cs).length := by
            simp [List.length_take]
          intro h0
          rw [h0] at this
          simp at this
          omega
        · simp [List.length_take]
      · exact ih ((c :: cs).drop bs)
          (by simp [List.length_drop] at hlen ⊢; omega) b h

theorem filter_flatMap {α : Type} (l : List α)
    (g : α → List DispatchEvent) (p : DispatchEvent → Bool) :
    (l.flatMap g).filter p = l.flatMap (fun x => (g x).filter p) := by
  induction l with
  | nil => rfl
  | cons x xs ih =>
    simp only [List.flatMap_cons, List.filter_append, ih]

theorem flatMap_eq_nil {α : Type} (l : List α) (g : α → List DispatchEvent)
    (h : ∀ x ∈ l, g x = []) : l.flatMap g = [] := by
  induction l with
  | nil => rfl
  | cons x xs ih =>
    rw [List.flatMap_cons, h x (List.mem_cons_self x xs),
      ih (fun y hy => h y (List.mem_cons_of_mem x hy))]
    rfl

/-- Filtering with a predicate that rejects the separator and everything in
the batches gives the separators' count. -/
theorem interBatches_filter_replicate (p : DispatchEvent → Bool)
    (d : DispatchEvent) (hd : p d = true) :
    ∀ L, (∀ b ∈ L, b.filter p = []) →
      (interBatches d L).filter p = List.replicate (L.length - 1) d := by
  intro L
  induction L with
  | nil => intro _; rfl
  | cons b L ih =>
    intro hL
    cases L with
    | nil =>
      simp only [interBatches]
      rw [hL b (List.mem_cons_self b [])]
      rfl
    | cons k ks =>
      rw [interBatches_cons_of_ne _ _ _ (by simp)]
      rw [List.filter_append, hL b (List.mem_cons_self b _)]
      rw [List.filter_cons_of_pos hd]
      rw [ih (fun x hx => hL x (List.mem_cons_of_mem b hx))]
      simp [List.replicate_succ]

/-- Filtering with a predicate that rejects the separator distributes over
the batches. -/
theorem interBatches_filter_flatMap (p : DispatchEvent → Bool)
    (d : DispatchEvent) (hd : p d = false) :
    ∀ L, (interBatches d L).filter p = L.flatMap (fun b => b.filter p) := by
  intro L
  induction L with
  | nil => rfl
  | cons b L ih =>
    cases L with
    | nil => simp [interBatches]
    | cons k ks =>
      rw [interBatches_cons_of_ne _ _ _ (by simp)]
      rw [List.filter_append, List.filter_cons_of_neg (by simp [hd])]
      rw [ih]
      simp [List.flatMap_cons]

theorem batchTrace_filter_send (dE : Nat) (ok : Nat → Nat → Bool) (t : Nat) :
    ∀ b, (batchTrace dE ok t b).filter (isSendTpl t) =
      b.map (fun r => DispatchEvent.send t r (ok t r)) := by
  intro b
  induction b with
  | nil => rfl
  | cons r rs ih =>
    have hstep : batchTrace dE ok t (r :: rs) =
        recipTrace dE ok t r ++ batchTrace dE ok t rs := by
      simp [batchTrace]
    have hr : (recipTrace dE ok t r).filter (isSendTpl t) =
        [DispatchEvent.send t r (ok t r)] := by
      cases hok : ok t r <;> simp [recipTrace, hok, isSendTpl]
    rw [hstep, List.filter_append, hr, ih, List.map_cons,
      List.singleton_append]

theorem batchTrace_no_batchDelay (dE : Nat) (ok : Nat → Nat → Bool)
    (t : Nat) : ∀ b, (batchTrace dE ok t b).filter isBatchDelay = [] := by
  intro b
  induction b with
  | nil => rfl
  | cons r rs ih =>
    have hstep : batchTrace dE ok t (r :: rs) =
        recipTrace dE ok t r ++ batchTrace dE ok t rs := by
      simp [batchTrace]
    have hr : (recipTrace dE ok t r).filter isBatchDelay = [] := by
      cases hok : ok t r <;> simp [recipTrace, hok, isBatchDelay]
    rw [hstep, List.filter_append, hr, ih]
    rfl

/-- Every event of a template's segment carries that template's index. -/
theorem tplOf_mem_templateTrace (recips : List Nat) (bs dE dB : Nat)
    (ok : Nat → Nat → Bool) (t : Nat) :
    ∀ e ∈ templateTrace recips bs dE dB ok t, tplOf e = t := by
  intro e he
  simp only [templateTrace, List.mem_flatMap, List.mem_append] at he
  obtain ⟨i, _, he⟩ := he
  rcases he with he | he
  · obtain ⟨r, _, he⟩ := he
    simp only [recipTrace, List.mem_cons] at he
    rcases he with rfl | he
    · rfl
    · cases hok : ok t r <;> rw [hok] at he <;> simp at he
      subst he
      rfl
  · by_cases hc : i + bs < recips.length
    · rw [if_pos hc] at he
      simp at he
      subst he
      rfl
    · rw [if_neg hc] at he
      cases he

/-- Events of a send with no template-`t` tag filter to nothing under
`isSendTpl t`. -/
theorem templateTrace_filter_send_other (recips : List Nat) (bs dE dB : Nat)
    (ok : Nat → Nat → Bool) (t t' : Nat) (h : t' ≠ t) :
    (templateTrace recips bs dE dB ok t').filter (isSendTpl t) = [] := by
  rw [List.filter_eq_nil_iff]
  intro e he
  have := tplOf_mem_templateTrace recips bs dE dB ok t' e he
  intro hp
  apply h
  cases e with
  | send a b c =>
    simp [isSendTpl] at hp
    simp [tplOf] at this
    omega
  | emailDelay a b => simp [isSendTpl] at hp
  | batchDelay a b => simp [isSendTpl] at hp

theorem pairwise_of_all {l : List DispatchEvent}
    (R : DispatchEvent → DispatchEvent → Prop)
    (h : ∀ a ∈ l, ∀ b ∈ l, R a b) : l.Pairwise R := by
  induction l with
  | nil => exact List.Pairwise.nil
  | cons x xs ih =>
    constructor
    · intro b hb
      exact h x (List.mem_cons_self x xs) b (List.mem_cons_of_mem x hb)
    · exact ih (fun a ha b hb =>
        h a (List.mem_cons_of_mem x ha) b (List.mem_cons_of_mem x hb))

/-- Templates are processed strictly in order: template indices are
monotone along the trace. -/
theorem pairwise_tpl_flatMap (g : Nat → List DispatchEvent)
    (hg : ∀ t e, e ∈ g t → tplOf e = t) :
    ∀ m, ((List.range m).flatMap g).Pairwise
      (fun a b => tplOf a ≤ tplOf b) := by
  intro m
  induction m with
  | zero => exact List.Pairwise.nil
  | succ m ih =>
    rw [List.range_succ, List.flatMap_append]
    rw [List.pairwise_append]
    refine ⟨ih, ?_, ?_⟩
    · simp only [List.flatMap_cons, List.flatMap_nil, List.append_nil]
      exact pairwise_of_all _ (fun a ha b hb => by
        rw [hg m a ha, hg m b hb])
    · intro a ha b hb
      simp only [List.mem_flatMap, List.mem_range] at ha
      obtain ⟨ta, hta, hae⟩ := ha
      simp only [List.flatMap_cons, List.flatMap_nil, List.append_nil] at hb
      rw [hg ta a hae, hg m b hb]
      omega

theorem flatMap_range_filter_single (g : Nat → List DispatchEvent)
    (p : DispatchEvent → Bool) (t : Nat)
    (hother : ∀ t', t' ≠ t → (g t').filter p = []) :
    ∀ m, t < m →
      ((List.range m).flatMap g).filter p = (g t).filter p := by
  intro m
  induction m with
  | zero => intro h; omega
  | succ m ih =>
    intro ht
    rw [List.range_succ, List.flatMap_append, List.filter_append]
    simp only [List.flatMap_cons, List.flatMap_nil, List.append_nil]
    by_cases h : t = m
    · subst h
      rw [filter_flatMap, flatMap_eq_nil]
      · rfl
      · intro x hx
        exact hother x (by simp at hx; omega)
    · rw [ih (by omega), hother m (by omega)]
      simp

theorem flatMap_range_filter_length (g : Nat → List DispatchEvent)
    (p : DispatchEvent → Bool) (c : Nat)
    (hc : ∀ t, ((g t).filter p).length = c) :
    ∀ m, (((List.range m).flatMap g).filter p).length = m * c := by
  intro m
  induction m with
  | zero => simp
  | succ m ih =>
    rw [List.range_succ, List.flatMap_append, List.filter_append,
      List.length_append, ih]
    simp only [List.flatMap_cons, List.flatMap_nil, List.append_nil, hc]
    ring

/-- C5: with batch size `bs ≥ 1`, the dispatch loop
(i) emits, template after template in listed order, the template's batches
joined by exactly one inter-batch delay between consecutive batches — and
hence no delay after a template's final batch;
(ii) never interleaves templates (template indices are monotone along the
trace);
(iii) attempts every recipient of every template exactly once, in list
order, regardless of which sends fail (the send events of template `t` are
exactly `recips.map (send t · (ok t ·))`);
(iv) takes `numT * (⌈|recips|/bs⌉ - 1)` inter-batch delays in total; and
(v) the batches partition the recipient list in order, each non-empty and
of at most `bs` recipients. -/
theorem dispatch_loop_correct (numT bs dE dB : Nat) (recips : List Nat)
    (ok : Nat → Nat → Bool) (hbs : 1 ≤ bs) :
    campaignTrace numT recips bs dE dB ok =
      (List.range numT).flatMap (fun t =>
        interBatches (.batchDelay t dB)
          ((recipientBatches bs recips).map (batchTrace dE ok t))) ∧
    (campaignTrace numT recips bs dE dB ok).Pairwise
      (fun a b => tplOf a ≤ tplOf b) ∧
    (∀ t, t < numT →
      (campaignTrace numT recips bs dE dB ok).filter (isSendTpl t) =
        recips.map (fun r => DispatchEvent.send t r (ok t r))) ∧
    ((campaignTrace numT recips bs dE dB ok).filter isBatchDelay).length =
      numT * ((recipientBatches bs recips).length - 1) ∧
    (∀ b ∈ recipientBatches bs recips, b ≠ [] ∧ b.length ≤ bs) ∧
    (recipientBatches bs recips).flatten = recips := by
  have htpl : ∀ t, templateTrace recips bs dE dB ok t =
      interBatches (.batchDelay t dB)
        ((chunksOf bs recips).map (batchTrace dE ok t)) :=
    fun t => templateTrace_eq_interBatches bs dE dB ok t hbs
      recips.length recips le_rfl
  refine ⟨?_, ?_, ?_, ?_, ?_, ?_⟩
  · simp only [campaignTrace, recipientBatches]
    exact flatMap_congr _ _ _ (fun t _ => htpl t)
  · exact pairwise_tpl_flatMap _ (fun t e he =>
      tplOf_mem_templateTrace recips bs dE dB ok t e he) numT
  · intro t ht
    rw [campaignTrace, flatMap_range_filter_single _ _ t
      (fun t' h => templateTrace_filter_send_other recips bs dE dB ok t t' h)
      numT ht]
    rw [htpl t, interBatches_filter_flatMap _ _ (by simp [isSendTpl])]
    rw [List.flatMap_map]
    have : ∀ b, (batchTrace dE ok t b).filter (isSendTpl t) =
        b.map (fun r => DispatchEvent.send t r (ok t r)) :=
      batchTrace_filter_send dE ok t
    calc (chunksOf bs recips).flatMap
          (fun b => (batchTrace dE ok t b).filter (isSendTpl t))
        = (chunksOf bs recips).flatMap
            (fun b => b.map (fun r => DispatchEvent.send t r (ok t r))) :=
          flatMap_congr _ _ _ (fun b _ => this b)
      _ = (chunksOf bs recips).flatten.map
            (fun r => DispatchEvent.send t r (ok t r)) :=
          flatMap_map_eq_flatten_map _ _
      _ = recips.map (fun r => DispatchEvent.send t r (ok t r)) := by
          rw [chunksOf_flatten bs hbs recips.length recips le_rfl]
  · have hc : ∀ t, ((templateTrace recips bs dE dB ok t).filter
        isBatchDelay).length = (chunksOf bs recips).length - 1 := by
      intro t
      have hbmem : ∀ b ∈ (chunksOf bs recips).map (batchTrace dE ok t),
          b.filter isBatchDelay = [] := by
        intro b hb
        simp only [List.mem_map] at hb
        obtain ⟨b0, _, rfl⟩ := hb
        exact batchTrace_no_batchDelay dE ok t b0
      rw [htpl t, interBatches_filter_replicate isBatchDelay
        (DispatchEvent.batchDelay t dB) (by rfl) _ hbmem]
      simp
    rw [campaignTrace, flatMap_range_filter_length _ _ _ hc numT]
    simp [recipientBatches]
  · exact chunksOf_sizes bs hbs recips.length recips le_rfl
  · exact chunksOf_flatten bs hbs recips.length recips le_rfl

/-- C5 witness (the scenario of the claim: 2 templates, 3 recipients, batch
size 2, with the send to recipient 1 failing): sends of template 0 are
exactly the three recipients in order, there are `2 * (2 - 1)` inter-batch
delays in total, and the batches concatenate to the recipient list. -/
theorem dispatch_loop_correct_witness :
    (campaignTrace 2 [0, 1, 2] 2 1 5 (fun _ r => r != 1)).filter (isSendTpl 0) =
      [0, 1, 2].map (fun r => DispatchEvent.send 0 r ((fun _ r => r != 1) 0 r)) ∧
    ((campaignTrace 2 [0, 1, 2] 2 1 5 (fun _ r => r != 1)).filter
      isBatchDelay).length = 2 * ((recipientBatches 2 [0, 1, 2]).length - 1) ∧
    (recipientBatches 2 [0, 1, 2]).flatten = [0, 1, 2] := by
  have h := dispatch_loop_correct 2 2 1 5 [0, 1, 2] (fun _ r => r != 1)
    (by omega)
  exact ⟨h.2.2.1 0 (by omega), h.2.2.2.1, h.2.2.2.2.2⟩

/-! ## C6 — link instrumentation -/

/-- A string that starts with `p` is `p` followed by the rest. -/
theorem leadsWith_decomp (p : List Char) :
    ∀ s, leadsWith p s = true → s = p ++ s.drop p.length := by
  induction p with
  | nil => intro s _; simp
  | cons q qs ih =>
    intro s h
    cases s with
    | nil => cases h
    | cons c cs =>
      rw [leadsWith, Bool.and_eq_true] at h
      have hqc : q = c := by simpa using h.1
      subst hqc
      have := ih cs h.2
      calc q :: cs = q :: (qs ++ cs.drop qs.length) := by rw [← this]
        _ = (q :: qs) ++ (q :: cs).drop (q :: qs).length := by simp

/-- The first element left by `dropWhile` fails the predicate. -/
theorem dropWhile_head_false (p : Char → Bool) :
    ∀ (l : List Char) (c : Char) (t : List Char),
      l.dropWhile p = c :: t → p c = false := by
  intro l
  induction l with
  | nil => intro c t h; cases h
  | cons x xs ih =>
    intro c t h
    rw [List.dropWhile] at h
    cases hp : p x with
    | true => rw [hp] at h; exact ih c t h
    | false =>
      rw [hp] at h
      cases h
      exact hp

/-- Decomposition of a match: a string where `href="([^\x22]+)"` matches at
the head is the literal, the captured URL, the closing quote and the rest. -/
theorem hrefMatch_decomp (s : List Char) (h : hrefMatchAt s = true) :
    s = hrefLit ++ (hrefUrlAt s ++ '"' :: hrefRest s) ∧
    (hrefUrlAt s).length + 7 + (hrefRest s).length = s.length ∧
    hrefUrlAt s ≠ [] := by
  have hua : hrefUrlAt s = (s.drop 6).takeWhile (· ≠ '"') := rfl
  rw [hrefMatchAt, Bool.and_eq_true, Bool.and_eq_true] at h
  obtain ⟨hlead, hne, hlt⟩ := h
  have hne' : hrefUrlAt s ≠ [] := by
    rw [hua]
    simpa using hne
  have hlt' : (hrefUrlAt s).length < (s.drop 6).length := by
    rw [hua]
    simpa using hlt
  have hs6 : s = hrefLit ++ s.drop 6 :=
    leadsWith_decomp hrefLit s hlead
  have htd : hrefUrlAt s ++ (s.drop 6).dropWhile (· ≠ '"') = s.drop 6 := by
    rw [hua]
    exact List.takeWhile_append_dropWhile (· ≠ '"') (s.drop 6)
  have hdw_len : ((s.drop 6).dropWhile (· ≠ '"')).length =
      (s.drop 6).length - (hrefUrlAt s).length := by
    have h0 := congrArg List.length htd
    simp only [List.length_append] at h0
    omega
  obtain ⟨c0, t, hdw⟩ : ∃ c0 t, (s.drop 6).dropWhile (· ≠ '"') = c0 :: t := by
    cases hd : (s.drop 6).dropWhile (· ≠ '"') with
    | nil =>
      rw [hd] at hdw_len
      simp only [List.length_nil] at hdw_len
      omega
    | cons c0 t => exact ⟨c0, t, rfl⟩
  have hc0 : c0 = '"' := by
    have := dropWhile_head_false (· ≠ '"') (s.drop 6) c0 t hdw
    simpa using this
  subst hc0
  have h2 : (s.drop 6).drop (hrefUrlAt s).length = '"' :: t := by
    conv_lhs => rw [← htd]
    rw [List.drop_left]
    exact hdw
  have hrest : hrefRest s = t := by
    show (s.drop 6).drop (((s.drop 6).takeWhile (· ≠ '"')).length + 1) = t
    rw [← hua, ← List.drop_drop, h2]
    rfl
  have hsplit : s = hrefLit ++ (hrefUrlAt s ++ '"' :: hrefRest s) := by
    rw [hrest, ← hdw, htd]
    exact hs6
  refine ⟨hsplit, ?_, hne'⟩
  have hslen := congrArg List.length hsplit
  simp only [List.length_append, List.length_cons, hrefLit] at hslen
  simp only [List.length_cons, List.length_nil] at hslen
  omega

theorem chunksAux_ne_nil : ∀ (fuel : Nat) (s : List Char),
    hrefChunksAux fuel s ≠ [] := by
  intro fuel s
  match fuel, s with
  | _, [] => simp [hrefChunksAux]
  | 0, c :: cs => simp [hrefChunksAux]
  | fuel + 1, c :: cs =>
    simp only [hrefChunksAux]
    split
    · simp
    · cases h : hrefChunksAux fuel cs <;> simp

theorem interleave_cons_cons (c : Char) (k : List Char)
    (ks rs : List (List Char)) :
    interleave ((c :: k) :: ks) rs = c :: interleave (k :: ks) rs := by
  cases rs <;> rfl

/-- Joint decomposition of the `re.sub` scanner: the rewritten string is the
inter-match chunks interleaved with the replacements; the chunks interleaved
with the matches themselves rebuild the input; and with no match the input
is returned unchanged. -/
theorem subHref_decomposition (repl : List Char → List Char) :
    ∀ fuel s, s.length ≤ fuel →
      subHrefAux repl fuel s =
        interleave (hrefChunksAux fuel s)
          ((hrefUrlsAux fuel s).map (fun u => hrefLit ++ repl u ++ ['"'])) ∧
      interleave (hrefChunksAux fuel s)
        ((hrefUrlsAux fuel s).map (fun u => hrefLit ++ u ++ ['"'])) = s ∧
      (hrefUrlsAux fuel s = [] → subHrefAux repl fuel s = s) := by
  intro fuel
  induction fuel with
  | zero =>
    intro s h
    have h0 : s = [] := List.length_eq_zero.mp (by omega)
    subst h0
    exact ⟨rfl, rfl, fun _ => rfl⟩
  | succ fuel ih =>
    intro s hlen
    cases s with
    | nil => exact ⟨rfl, rfl, fun _ => rfl⟩
    | cons c cs =>
      by_cases hm : hrefMatchAt (c :: cs) = true
      · obtain ⟨hdecomp, hlen7, _⟩ := hrefMatch_decomp _ hm
        have hrest_len : (hrefRest (c :: cs)).length ≤ fuel := by
          have : (c :: cs).length ≤ fuel + 1 := hlen
          omega
        obtain ⟨ih1, ih2, ih3⟩ := ih (hrefRest (c :: cs)) hrest_len
        rw [subHrefAux, hrefUrlsAux, hrefChunksAux, if_pos hm, if_pos hm,
          if_pos hm]
        refine ⟨?_, ?_, ?_⟩
        · rw [List.map_cons, interleave, ih1]
          simp [List.append_assoc]
        · rw [List.map_cons, interleave, ih2]
          conv_rhs => rw [hdecomp]
          simp [List.append_assoc]
        · intro h
          cases h
      · rw [Bool.not_eq_true] at hm
        have hcslen : cs.length ≤ fuel := by
          have : (c :: cs).length ≤ fuel + 1 := hlen
          simp at this
          omega
        obtain ⟨ih1, ih2, ih3⟩ := ih cs hcslen
        rw [subHrefAux, hrefUrlsAux, hrefChunksAux, if_neg (by simp [hm]),
          if_neg (by simp [hm]), if_neg (by simp [hm])]
        cases hks : hrefChunksAux fuel cs with
        | nil => exact absurd hks (chunksAux_ne_nil fuel cs)
        | cons k ks =>
          rw [hks] at ih1 ih2
          refine ⟨?_, ?_, ?_⟩
          · rw [interleave_cons_cons, ih1]
          · rw [interleave_cons_cons, ih2]
          · intro h
            rw [ih3 h]

/-- The map `Char.ofNat` inverts `Char.toNat` on valid low scalar values. -/
theorem toNat_ofNat_valid (n : Nat) (h : n < 0xD800) :
    (Char.ofNat n).toNat = n := by
  unfold Char.ofNat
  rw [dif_pos (Or.inl h)]
  simp [Char.toNat, Char.ofNatAux, UInt32.toNat]

/-- A `Char`'s scalar value, as a `Nat`, is a valid scalar value. -/
theorem char_valid_nat (c : Char) :
    c.toNat < 0xD800 ∨ (0xE000 ≤ c.toNat ∧ c.toNat < 0x110000) :=
  c.valid

/-- UTF-8 decoding undoes the encoding of one character, whatever follows. -/
theorem utf8Decode_char (c : Char) (fuel : Nat) (rest : List Nat) :
    utf8DecodeAux (fuel + 1) (utf8Char c ++ rest) =
      (c :: ·) <$> utf8DecodeAux fuel rest := by
  have hval := char_valid_nat c
  have hofNat : Char.ofNat c.toNat = c := Char.ofNat_toNat c
  rw [utf8Char]
  by_cases h1 : c.toNat < 0x80
  · rw [if_pos h1]
    rw [List.cons_append, List.nil_append, utf8DecodeAux, if_pos h1, hofNat]
  · rw [if_neg h1]
    by_cases h2 : c.toNat < 0x800
    · rw [if_pos h2]
      rw [List.cons_append, List.cons_append, List.nil_append, utf8DecodeAux]
      rw [if_neg (by omega), if_neg (by omega), if_pos (by omega)]
      rw [if_pos ?hcond]
      case hcond =>
        refine ⟨by simp, ?_⟩
        simp only [List.getD_cons_zero]
        exact ⟨by omega, by omega⟩
      simp only [List.getD_cons_zero, List.drop_succ_cons, List.drop_zero]
      have harith : (0xC0 + c.toNat / 64 - 0xC0) * 64 +
          (0x80 + c.toNat % 64 - 0x80) = c.toNat := by omega
      rw [harith, hofNat]
    · rw [if_neg h2]
      by_cases h3 : c.toNat < 0x10000
      · rw [if_pos h3]
        rw [List.cons_append, List.cons_append, List.cons_append,
          List.nil_append, utf8DecodeAux]
        rw [if_neg (by omega), if_neg (by omega), if_neg (by omega),
          if_pos (by omega)]
        rw [if_pos ?hcond3]
        case hcond3 =>
          refine ⟨by simp, ?_, ?_⟩ <;>
            simp only [List.getD_cons_zero, List.getD_cons_succ] <;>
            constructor <;> omega
        simp only [List.getD_cons_zero, List.getD_cons_succ,
          List.drop_succ_cons, List.drop_zero]
        have harith : (0xE0 + c.toNat / 4096 - 0xE0) * 4096 +
            (0x80 + c.toNat / 64 % 64 - 0x80) * 64 +
            (0x80 + c.toNat % 64 - 0x80) = c.toNat := by omega
        rw [harith, hofNat]
      · rw [if_neg h3]
        have hup : c.toNat < 0x110000 := by omega
        rw [List.cons_append, List.cons_append, List.cons_append,
          List.cons_append, List.nil_append, utf8DecodeAux]
        rw [if_neg (by omega), if_neg (by omega), if_neg (by omega),
          if_neg (by omega), if_pos (by omega)]
        rw [if_pos ?hcond4]
        case hcond4 =>
          refine ⟨by simp, ?_, ?_, ?_⟩ <;>
            simp only [List.getD_cons_zero, List.getD_cons_succ] <;>
            constructor <;> omega
        simp only [List.getD_cons_zero, List.getD_cons_succ,
          List.drop_succ_cons, List.drop_zero]
        have harith : (0xF0 + c.toNat / 262144 - 0xF0) * 262144 +
            (0x80 + c.toNat / 4096 % 64 - 0x80) * 4096 +
            (0x80 + c.toNat / 64 % 64 - 0x80) * 64 +
            (0x80 + c.toNat % 64 - 0x80) = c.toNat := by omega
        rw [harith, hofNat]

theorem utf8DecodeAux_utf8Encode (s : List Char) :
    ∀ fuel, s.length ≤ fuel → utf8DecodeAux fuel (utf8Encode s) = some s := by
  induction s with
  | nil => intro fuel _; cases fuel <;> rfl
  | cons c cs ih =>
    intro fuel hlen
    cases fuel with
    | zero => simp at hlen
    | succ fuel =>
      show utf8DecodeAux (fuel + 1) (utf8Char c ++ utf8Encode cs) =
        some (c :: cs)
      rw [utf8Decode_char, ih fuel (by simp at hlen; omega)]
      rfl

/-- Each character encodes to at least one byte. -/
theorem utf8Char_length_pos (c : Char) : 1 ≤ (utf8Char c).length := by
  rw [utf8Char]
  split
  · simp
  · split
    · simp
    · split <;> simp

theorem length_le_utf8Encode_length (s : List Char) :
    s.length ≤ (utf8Encode s).length := by
  induction s with
  | nil => simp [utf8Encode]
  | cons c cs ih =>
    have h1 : utf8Encode (c :: cs) = utf8Char c ++ utf8Encode cs := rfl
    rw [h1, List.length_append, List.length_cons]
    have := utf8Char_length_pos c
    omega

/-- Python's `bytes.decode('utf-8')` recovers exactly what `str.encode()`
produced. -/
theorem utf8Decode_utf8Encode (s : List Char) :
    utf8Decode (utf8Encode s) = some s :=
  utf8DecodeAux_utf8Encode s (utf8Encode s).length
    (length_le_utf8Encode_length s)

theorem hexVal_hexCharUpper (n : Nat) :
    hexVal (hexCharUpper n) = some (n % 16) := by
  have h : n % 16 < 16 := Nat.mod_lt _ (by norm_num)
  suffices hgen : ∀ m, m < 16 →
      hexVal ("0123456789ABCDEF".data.getD m '0') = some m by
    exact hgen (n % 16) h
  intro m hm
  interval_cases m <;> decide

/-- Unquoting undoes the quoting of one byte, whatever follows. -/
theorem unquoteBytes_quoteByte (b : Nat) (hb : b < 256) (fuel : Nat)
    (r : List Char) :
    unquoteBytesAux (fuel + 1) (quoteByte b ++ r) =
      (b :: ·) <$> unquoteBytesAux fuel r := by
  rw [quoteByte]
  by_cases h32 : b == 32
  · rw [if_pos h32]
    rw [List.cons_append, List.nil_append, unquoteBytesAux,
      if_pos rfl]
    have hb32 : b = 32 := by simpa using h32
    rw [hb32]
  · rw [if_neg h32]
    by_cases hsafe : isUrlSafe b
    · rw [if_pos hsafe]
      have hbounds : (65 ≤ b ∧ b ≤ 90) ∨ (97 ≤ b ∧ b ≤ 122) ∨
          (48 ≤ b ∧ b ≤ 57) ∨ b = 95 ∨ b = 46 ∨ b = 45 ∨ b = 126 := by
        rw [isUrlSafe] at hsafe
        simp only [Bool.or_eq_true, Bool.and_eq_true, beq_iff_eq,
          decide_eq_true_eq] at hsafe
        tauto
      have hlt : b < 0xD800 := by omega
      have htn : (Char.ofNat b).toNat = b := toNat_ofNat_valid b hlt
      rw [List.cons_append, List.nil_append, unquoteBytesAux]
      rw [if_neg ?hplus, if_neg ?hpct, if_pos (by rw [htn]; omega)]
      case hplus =>
        intro h
        have h2 := congrArg Char.toNat h
        rw [htn] at h2
        have h43 : ('+' : Char).toNat = 43 := rfl
        rw [h43] at h2
        omega
      case hpct =>
        intro h
        have h2 := congrArg Char.toNat h
        rw [htn] at h2
        have h37 : ('%' : Char).toNat = 37 := rfl
        rw [h37] at h2
        omega
      · rw [htn]
    · rw [if_neg hsafe]
      rw [List.cons_append, List.cons_append, List.cons_append,
        List.nil_append, unquoteBytesAux]
      rw [if_neg (by decide), if_pos rfl]
      rw [if_pos (by simp)]
      rw [if_pos ?hhex]
      case hhex =>
        simp only [List.getD_cons_zero, List.getD_cons_succ,
          hexVal_hexCharUpper]
        exact ⟨rfl, rfl⟩
      simp only [List.getD_cons_zero, List.getD_cons_succ,
        hexVal_hexCharUpper, List.drop_succ_cons, List.drop_zero]
      have harith : b / 16 % 16 * 16 + b % 16 = b := by omega
      simp only [Option.getD_some]
      rw [harith]

theorem utf8Char_lt_256 (c : Char) : ∀ x ∈ utf8Char c, x < 256 := by
  rcases char_valid_nat c with hv | ⟨hv1, hv2⟩ <;>
  · intro x hx
    rw [utf8Char] at hx
    split_ifs at hx with h1 h2 h3
    · simp at hx; omega
    · simp at hx; rcases hx with rfl | rfl <;> omega
    · simp at hx; rcases hx with rfl | rfl | rfl <;> omega
    · simp at hx; rcases hx with rfl | rfl | rfl | rfl <;> omega

theorem utf8Encode_lt_256 (s : List Char) : ∀ x ∈ utf8Encode s, x < 256 := by
  intro x hx
  rw [utf8Encode] at hx
  simp only [List.mem_flatMap] at hx
  obtain ⟨c, _, hx⟩ := hx
  exact utf8Char_lt_256 c x hx

theorem unquoteBytesAux_flatMap (bs : List Nat) :
    ∀ fuel, bs.length ≤ fuel → (∀ b ∈ bs, b < 256) →
      unquoteBytesAux fuel (bs.flatMap quoteByte) = some bs := by
  induction bs with
  | nil => intro fuel _ _; cases fuel <;> rfl
  | cons b bs' ih =>
    intro fuel hlen hbb
    cases fuel with
    | zero => simp at hlen
    | succ fuel =>
      rw [List.flatMap_cons,
        unquoteBytes_quoteByte b (hbb b (List.mem_cons_self b bs')) fuel,
        ih fuel (by simp at hlen; omega)
          (fun y hy => hbb y (List.mem_cons_of_mem _ hy))]
      rfl

theorem quoteByte_length_pos (b : Nat) : 1 ≤ (quoteByte b).length := by
  rw [quoteByte]
  split
  · simp
  · split <;> simp

theorem length_le_quote_length (bs : List Nat) :
    bs.length ≤ (bs.flatMap quoteByte).length := by
  induction bs with
  | nil => simp
  | cons b bs' ih =>
    rw [List.flatMap_cons, List.length_append, List.length_cons]
    have := quoteByte_length_pos b
    omega

/-- C6's "decodable back to its original URL": `unquote_plus` recovers
exactly the string `quote_plus` encoded. -/
theorem quotePlus_roundtrip (s : List Char) :
    unquotePlus (quotePlus s) = some s := by
  rw [unquotePlus, quotePlus, unquoteBytes]
  rw [unquoteBytesAux_flatMap (utf8Encode s) _
    (le_trans (length_le_quote_length (utf8Encode s)) le_rfl)
    (utf8Encode_lt_256 s)]
  show utf8Decode (utf8Encode s) = some s
  exact utf8Decode_utf8Encode s

theorem hexChar_mem (n : Nat) : hexChar n ∈ hexDigits := by
  rw [hexChar]
  have h : n % 16 < hexDigits.length := by
    rw [show hexDigits.length = 16 from rfl]
    exact Nat.mod_lt _ (by norm_num)
  rw [List.getD_eq_getElem _ _ h]
  exact List.getElem_mem h

/-- Every character of a SHA-256 hex digest is a lowercase hex digit. -/
theorem sha256Hex_mem_hexDigits (s : List Char) :
    ∀ c ∈ sha256Hex s, c ∈ hexDigits := by
  intro c hc
  rw [sha256Hex] at hc
  simp only [List.mem_flatMap] at hc
  obtain ⟨b, _, hc⟩ := hc
  rw [byteHex] at hc
  simp at hc
  rcases hc with rfl | rfl <;> exact hexChar_mem _

/-- Applying `quote_plus` to a pure-hex string leaves it untouched. -/
theorem quotePlus_hex_id (l : List Char) (h : ∀ c ∈ l, c ∈ hexDigits) :
    quotePlus l = l := by
  induction l with
  | nil => rfl
  | cons c cs ih =>
    have hc := h c (List.mem_cons_self c cs)
    have hcs := ih (fun y hy => h y (List.mem_cons_of_mem c hy))
    have hstep : quotePlus (c :: cs) =
        (utf8Char c).flatMap quoteByte ++ quotePlus cs := by
      show (utf8Char c ++ utf8Encode cs).flatMap quoteByte = _
      rw [List.flatMap_append]
      rfl
    rw [hstep, hcs]
    have hone : (utf8Char c).flatMap quoteByte = [c] := by
      fin_cases hc <;> rfl
    rw [hone]
    rfl

/-- C6: `generate_tracking_links`
(i) returns content with no `href="…"` match unchanged;
(ii) rewrites content with exactly `N` matches into the inter-match chunks
interleaved with exactly `N` tracking URLs, one per captured link in order
(and the same interleaving with the original matches rebuilds the input,
so chunks/urls really are the decomposition of the input);
(iii) each tracking URL is
`https://{domain}/click?eid={qp emailId}&url={qp url}&tid={tag}` with
`qp = quote_plus`, the tag being the first 12 characters of the SHA-256 hex
digest of `emailId:originalUrl` — 12 characters, all hex digits — and the
original URL is recoverable from its encoding by `unquote_plus`. -/
theorem generate_tracking_links_correct (content emailId domain : List Char)
    (N : Nat) (hN : (hrefUrls content).length = N) :
    ((hrefUrls content).length = 0 →
      generateTrackingLinks content emailId domain = content) ∧
    interleave (hrefChunks content)
      ((hrefUrls content).map (fun u => hrefLit ++ u ++ ['"'])) = content ∧
    generateTrackingLinks content emailId domain =
      interleave (hrefChunks content)
        ((hrefUrls content).map
          (fun u => hrefLit ++ trackingUrl emailId domain u ++ ['"'])) ∧
    ((hrefUrls content).map
      (fun u => hrefLit ++ trackingUrl emailId domain u ++ ['"'])).length = N ∧
    (∀ u ∈ hrefUrls content,
      trackingUrl emailId domain u =
        "https://".data ++ domain ++ "/click?".data ++
          ("eid=".data ++ quotePlus emailId ++ "&url=".data ++ quotePlus u ++
           "&tid=".data ++ linkTag emailId u) ∧
      linkTag emailId u = (sha256Hex (emailId ++ ':' :: u)).take 12 ∧
      (linkTag emailId u).length = 12 ∧
      (∀ c ∈ linkTag emailId u, c ∈ hexDigits) ∧
      unquotePlus (quotePlus u) = some u ∧
      unquotePlus (quotePlus emailId) = some emailId) := by
  obtain ⟨hj1, hj2, hj3⟩ :=
    subHref_decomposition (trackingUrl emailId domain)
      content.length content le_rfl
  have htagmem : ∀ u, ∀ c ∈ linkTag emailId u, c ∈ hexDigits := by
    intro u c hc
    rw [linkTag] at hc
    exact sha256Hex_mem_hexDigits _ c (List.take_subset 12 _ hc)
  refine ⟨?_, hj2, hj1, ?_, ?_⟩
  · intro h0
    exact hj3 (List.length_eq_zero.mp h0)
  · rw [List.length_map, hN]
  · intro u _
    refine ⟨?_, rfl, ?_, htagmem u, quotePlus_roundtrip u,
      quotePlus_roundtrip emailId⟩
    · rw [trackingUrl, trackingQuery, quotePlus_hex_id _ (htagmem u)]
    · rw [linkTag, List.length_take, sha256Hex_length]
      rfl

/-- C6 witness: a content string with exactly one link
(`<a href="http://x y">…`) decomposes into one tracking URL; its URL
round-trips through the encoding; the tag has 12 characters; and a
link-free content string comes back unchanged. -/
theorem generate_tracking_links_correct_witness :
    generateTrackingLinks "<a href=\"http://x y\">go</a>".data
        "m1".data "t.io".data =
      interleave (hrefChunks "<a href=\"http://x y\">go</a>".data)
        ((hrefUrls "<a href=\"http://x y\">go</a>".data).map
          (fun u => hrefLit ++ trackingUrl "m1".data "t.io".data u ++ ['"'])) ∧
    ((hrefUrls "<a href=\"http://x y\">go</a>".data).map
      (fun u => hrefLit ++ trackingUrl "m1".data "t.io".data u ++ ['"'])).length
      = 1 ∧
    unquotePlus (quotePlus "http://x y".data) = some "http://x y".data ∧
    (linkTag "m1".data "http://x y".data).length = 12 ∧
    generateTrackingLinks "no links here".data "m1".data "t.io".data =
      "no links here".data := by
  have h := generate_tracking_links_correct
    "<a href=\"http://x y\">go</a>".data "m1".data "t.io".data 1 (by decide)
  have h0 := generate_tracking_links_correct
    "no links here".data "m1".data "t.io".data 0 (by decide)
  refine ⟨h.2.2.1, h.2.2.2.1, ?_, ?_, h0.1 (by decide)⟩
  · exact (h.2.2.2.2 "http://x y".data (by decide)).2.2.2.2.1
  · exact (h.2.2.2.2 "http://x y".data (by decide)).2.2.1

end ZeroMail
